import Mathlib

/-!
Verification development for the `icelandic-voice-agent` repository.

The Python sources are shallowly embedded as executable Lean definitions:

* `app/audio/transcoder.py`   — μ-law codec (CPython `audioop` at width 2),
  chunking, silence generation (section `Transcoder` below);
* `app/telephony/media_stream.py` — silence classification, the inbound
  frame handler, the mark handler, the interruption handler, and an
  interpreter for the `_pipeline` coroutine over an explicit environment
  (oracles for the STT result, the streamed LLM sentences, the
  `_interrupted` flag reads, and the cancellation point);
* `app/conversation/manager.py` — conversation history with
  overflow summarization;
* `app/llm/claude_client.py`  — the streaming sentence segmenter with the
  Icelandic abbreviation rule.

Bytes are modelled as `Nat` values (`< 256` wherever produced by the code),
byte strings as `List Nat`, text as `String` or `List Char`, and the float
`time.monotonic()` clock as exact rationals (`ℚ`), so that the arithmetic
the code performs is represented exactly.
-/

namespace VoiceAgent

/-! ### Transcoder: μ-law codec (`app/audio/transcoder.py`, CPython `audioop`)

`audioop.ulaw2lin(data, 2)` decodes each μ-law byte with CPython's
`st_ulaw2linear16` and stores the 16-bit result; `audioop.lin2ulaw(data, 2)`
encodes each 16-bit sample `s` as `st_14linear2ulaw(s >> 2)` (the C source
computes `GETSAMPLE32(...) >> 18` which, for width 2, is the arithmetic
shift `(s << 16) >> 18 = s.fdiv 4`). -/

/-- CPython `audioop.c` `st_ulaw2linear16`: decode one μ-law byte (taken
mod 256) to a signed 16-bit PCM sample.  The C code complements the byte,
rebuilds the biased mantissa `((u & 0xF) << 3) + 0x84`, shifts it by the
segment `(u & 0x70) >> 4`, and applies the sign bit `0x80`. -/
def st_ulaw2linear16 (u : Nat) : Int :=
  let uv := 255 - u % 256
  let t : Int := ((uv % 16) * 8 + 132) * 2 ^ (uv / 16 % 8)
  if 128 ≤ uv then 132 - t else t - 132

/-- CPython `audioop.c` `st_14linear2ulaw`: encode one 14-bit-range signed
sample to a μ-law byte.  Clips the magnitude to 8159, adds the quarter
bias 33, finds the segment from the table `{0x3F,0x7F,...,0x1FFF}`, and
complements through the sign mask. -/
def st_14linear2ulaw (pcm : Int) : Nat :=
  let mask : Nat := if pcm < 0 then 0x7F else 0xFF
  let mag : Int := if pcm < 0 then -pcm else pcm
  let mag : Int := if 8159 < mag then 8159 else mag
  let v : Nat := (mag + 33).toNat
  let seg : Nat :=
    if v ≤ 0x3F then 0 else if v ≤ 0x7F then 1 else if v ≤ 0xFF then 2
    else if v ≤ 0x1FF then 3 else if v ≤ 0x3FF then 4 else if v ≤ 0x7FF then 5
    else if v ≤ 0xFFF then 6 else if v ≤ 0x1FFF then 7 else 8
  if 8 ≤ seg then 0x7F ^^^ mask
  else ((seg * 16) + (v / 2 ^ (seg + 1)) % 16) ^^^ mask

/-- `audioop.lin2ulaw(..., 2)` per sample: `st_14linear2ulaw(s >> 2)` with
an arithmetic shift (floor division by 4). -/
def lin2ulawSample (s : Int) : Nat :=
  st_14linear2ulaw (Int.fdiv s 4)

/-- Little-endian two-byte encoding of a 16-bit two's-complement sample,
as `audioop.ulaw2lin` stores results into the output byte string. -/
def int16ToBytes (s : Int) : List Nat :=
  let v := (s % 65536).toNat
  [v % 256, v / 256]

/-- Little-endian two-byte decoding to a signed 16-bit sample, as
`audioop.lin2ulaw` reads samples from the input byte string. -/
def bytesToInt16 (b0 b1 : Nat) : Int :=
  let v := b0 % 256 + (b1 % 256) * 256
  if 32768 ≤ v then (v : Int) - 65536 else (v : Int)

/-- Group a PCM16 byte string into its signed samples (byte strings
produced by `mulaw_to_pcm16` always have even length). -/
def pcm16Samples : List Nat → List Int
  | b0 :: b1 :: rest => bytesToInt16 b0 b1 :: pcm16Samples rest
  | _ => []

/-- `mulaw_to_pcm16(mulaw_data, 8000)` from `app/audio/transcoder.py`
(lines 16–37): at the matched target rate 8000 the function early-returns
`audioop.ulaw2lin(mulaw_data, 2)` without resampling.  (The other target
rates go through scipy `resample_poly` and are not needed by the claims.) -/
def mulaw_to_pcm16_8000 (mulawData : List Nat) : List Nat :=
  mulawData.flatMap (fun b => int16ToBytes (st_ulaw2linear16 b))

/-- `pcm16_to_mulaw(pcm_data, 8000)` from `app/audio/transcoder.py`
(lines 40–59): at the matched input rate 8000 the function skips the
resampling branch and returns `audioop.lin2ulaw(pcm_data, 2)`. -/
def pcm16_to_mulaw_8000 (pcmData : List Nat) : List Nat :=
  (pcm16Samples pcmData).map lin2ulawSample

/-! ### Transcoder: chunking (`chunk_audio`, lines 72–97) -/

/-- One pass of the `for i in range(0, len(audio), bytes_per_chunk)` loop
of `chunk_audio`, with chunk size `cm1 + 1` (the size is positive whenever
the Python `range` step is legal).  A full slice is kept as is; a short
final slice is padded with `pad` bytes.  The `fuel` argument only makes
the recursion structural; the loop is fully executed whenever
`audio.length ≤ fuel`. -/
def chunkGo (cm1 : Nat) (pad : Nat) : Nat → List Nat → List (List Nat)
  | _, [] => []
  | 0, _ :: _ => []
  | fuel + 1, a :: rest =>
    let c := cm1 + 1
    if c ≤ (a :: rest).length then
      (a :: rest).take c :: chunkGo cm1 pad fuel ((a :: rest).drop c)
    else
      [(a :: rest) ++ List.replicate (c - (a :: rest).length) pad]

/-- `chunk_audio(audio, chunk_ms, sample_rate, sample_width)` from
`app/audio/transcoder.py`: `bytes_per_chunk = int(sample_rate *
sample_width * chunk_ms / 1000)`; the last short chunk is padded with
`0xFF` (μ-law silence) when `sample_width == 1` and `0x00` otherwise.
A zero chunk size would make the Python `range` raise; that case is
mapped to the empty list and excluded by the theorems. -/
def chunk_audio (audio : List Nat) (chunkMs : Nat := 20)
    (sampleRate : Nat := 8000) (sampleWidth : Nat := 1) : List (List Nat) :=
  let bytesPerChunk := sampleRate * sampleWidth * chunkMs / 1000
  match bytesPerChunk with
  | 0 => []
  | cm1 + 1 =>
    chunkGo cm1 (if sampleWidth = 1 then 0xFF else 0x00) audio.length audio

/-- `generate_silence_mulaw` from `app/audio/transcoder.py` (lines 100–111). -/
def generate_silence_mulaw (durationMs : Nat) (sampleRate : Nat := 8000) :
    List Nat :=
  List.replicate (sampleRate * durationMs / 1000) 0xFF

/-! ### Silence classification (`_is_silence`, `media_stream.py` lines 504–522) -/

/-- Per-byte distance computed by the loop body of `_is_silence`:
`0xFF - b` when `b >= 0x80`, else `0x7F - b`.  (Bytes decoded from the
transport are `< 256`, where the natural subtraction cannot truncate.) -/
def byteEnergy (b : Nat) : Nat :=
  if 0x80 ≤ b then 0xFF - b else 0x7F - b

/-- `_is_silence(audio, threshold)` from `media_stream.py`: an empty frame
is silence; otherwise the frame is silent when the average per-byte energy
is strictly below the threshold (default `SILENCE_ENERGY_THRESHOLD = 10`).
The float average is modelled as the exact rational `total / len`. -/
def is_silence (audio : List Nat) (threshold : Nat := 10) : Bool :=
  if audio.isEmpty then true
  else decide ((((audio.map byteEnergy).sum : ℚ) / audio.length) < threshold)

/-! ### Session state and inbound handlers (`media_stream.py`) -/

/-- `AgentState` from `media_stream.py` lines 55–58. -/
inductive AgentState
  | listening
  | processing
  | speaking
deriving DecidableEq

/-- The per-call mutable fields of `MediaStreamHandler` that the inbound
handlers read and write (lines 82–99). -/
structure SessionState where
  state : AgentState
  audioBuffer : List Nat
  silenceStart : Option ℚ
  hasSpeech : Bool
  bargeInFrames : Nat
  playedMarks : List String
  interrupted : Bool
deriving DecidableEq

/-- `BARGE_IN_THRESHOLD` (line 46). -/
def BARGE_IN_THRESHOLD : Nat := 10

/-- `MIN_AUDIO_BYTES` (line 52): 60 ms at 8 kHz μ-law. -/
def MIN_AUDIO_BYTES : Nat := 480

/-- Result of one inbound `media` frame: the updated session, the
snapshot of the utterance buffer handed to the spawned pipeline when one
was dispatched (`_process_utterance`, lines 254–272), and whether a
`clear` control was sent (by `_handle_interruption`). -/
structure MediaStep where
  st : SessionState
  dispatched : Option (List Nat)
  clearSent : Bool
deriving DecidableEq

/-- The shared barge-in branch of `_handle_media` for the `SPEAKING`
(lines 177–190) and `PROCESSING` (lines 193–206) states: a voiced frame
increments the counter; at `BARGE_IN_THRESHOLD` the interruption handler
runs (cancel task, send clear, state to listening, buffer cleared), the
counter resets and the interrupting frame starts a new utterance; a
silent frame resets the counter. -/
def bargeBranch (st : SessionState) (frame : List Nat) : MediaStep :=
  if is_silence frame = false then
    if BARGE_IN_THRESHOLD ≤ st.bargeInFrames + 1 then
      { st := { st with interrupted := true, state := .listening,
                        bargeInFrames := 0, audioBuffer := frame,
                        silenceStart := none, hasSpeech := true },
        dispatched := none, clearSent := true }
    else
      { st := { st with bargeInFrames := st.bargeInFrames + 1 },
        dispatched := none, clearSent := false }
  else
    { st := { st with bargeInFrames := 0 }, dispatched := none,
      clearSent := false }

/-- `_handle_media` from `media_stream.py` (lines 160–224) together with
the synchronous part of `_process_utterance` (lines 254–272): `frame` is
the base64-decoded payload (an empty payload returns immediately), `now`
is `time.monotonic()` in seconds, `silenceThresholdMs` the configured
utterance-end threshold (`settings.vad_silence_threshold_ms`, default
800).  Dispatching snapshots and clears the utterance buffer, resets the
silence timestamp and speech flag, and moves the state to `PROCESSING`. -/
def handle_media (silenceThresholdMs : Int) (st : SessionState)
    (frame : List Nat) (now : ℚ) : MediaStep :=
  if frame.isEmpty then { st := st, dispatched := none, clearSent := false }
  else
    match st.state with
    | .speaking => bargeBranch st frame
    | .processing => bargeBranch st frame
    | .listening =>
      let st := { st with audioBuffer := st.audioBuffer ++ frame }
      if is_silence frame = false then
        { st := { st with hasSpeech := true, silenceStart := none },
          dispatched := none, clearSent := false }
      else
        match st.silenceStart with
        | none =>
          { st := { st with silenceStart := some now }, dispatched := none,
            clearSent := false }
        | some t0 =>
          if st.hasSpeech = true ∧ (silenceThresholdMs : ℚ) ≤ (now - t0) * 1000 then
            if MIN_AUDIO_BYTES < st.audioBuffer.length then
              { st := { st with state := .processing, audioBuffer := [],
                                silenceStart := none, hasSpeech := false },
                dispatched := some st.audioBuffer, clearSent := false }
            else { st := st, dispatched := none, clearSent := false }
          else { st := st, dispatched := none, clearSent := false }

/-- `_handle_mark` from `media_stream.py` (lines 226–232): record the
acknowledged mark name (a Python `set`, modelled as a duplicate-free
list) and, whenever the session is `SPEAKING`, return to `LISTENING` —
without comparing the received name against any emitted mark. -/
def handle_mark (st : SessionState) (name : String) : SessionState :=
  let marks := if name ∈ st.playedMarks then st.playedMarks
               else st.playedMarks ++ [name]
  { st with playedMarks := marks,
            state := if st.state = .speaking then .listening else st.state }

/-- Effect of `_handle_interruption` (lines 234–252): set the interruption
flag, cancel the in-flight pipeline task, send one `clear` control to the
transport, return to `LISTENING`, empty the utterance buffer and reset
the speech flag. -/
structure InterruptionEffect where
  st : SessionState
  cancelsPipeline : Bool
  clearSent : Bool
deriving DecidableEq

/-- `_handle_interruption` from `media_stream.py` (lines 234–252). -/
def handle_interruption (st : SessionState) : InterruptionEffect :=
  { st := { st with interrupted := true, state := .listening,
                    audioBuffer := [], hasSpeech := false },
    cancelsPipeline := true, clearSent := true }

/-- Effect of `_cleanup` (lines 486–501, run on transport close): it
cancels the in-flight pipeline task and removes the conversation, but
sends nothing on the transport — in particular no `clear` control. -/
structure CleanupEffect where
  cancelsPipeline : Bool
  clearSent : Bool
deriving DecidableEq

/-- `_cleanup` from `media_stream.py` (lines 486–501). -/
def cleanup_effect : CleanupEffect :=
  { cancelsPipeline := true, clearSent := false }

/-! ### Conversation store (`app/conversation/manager.py`)

`get_summary` reads the wall clock (`datetime.now(UTC) - started_at`);
the resulting whole-minute count enters the model as the explicit
`minutes` argument. -/

/-- Message roles (`app/conversation/models.py`). -/
inductive Role
  | user
  | assistant
deriving DecidableEq

/-- A stored message (the creation timestamp is not read by any of the
modelled operations). -/
structure Message where
  role : Role
  content : String
deriving DecidableEq

/-- The state of one `ConversationManager`. -/
structure ConvState where
  caller : String
  maxTurns : Nat
  messages : List Message
  turnCount : Nat
deriving DecidableEq

/-- Count of user-role messages, as computed by `_trim_if_needed` line 95
and `get_summary` line 79. -/
def userCount (msgs : List Message) : Nat :=
  (msgs.filter (fun m => m.role = Role.user)).length

/-- `get_summary` (lines 74–87).  `minutes` is
`int((now - started_at).total_seconds() / 60)`. -/
def get_summary (st : ConvState) (minutes : Nat) : String :=
  if st.messages.isEmpty then "Ekkert samtal hefur átt sér stað."
  else
    "Samtal við " ++ st.caller ++ ", " ++ toString (userCount st.messages)
      ++ " umferðir á " ++ toString minutes
      ++ " mínútum. Síðasta skilaboð: "
      ++ ((st.messages.getLastD { role := Role.user, content := "" }).content.take 100)

/-- `_trim_if_needed` (lines 89–118).  `keep_recent = (max_turns - 2) * 2`
raised to at least 4; over `Nat` the truncated subtraction agrees with the
Python integer expression because both branches yield 4 whenever
`max_turns ≤ 2`.  The suffix `messages[-keep_recent:]` is
`drop (length - keep_recent)`. -/
def trim_if_needed (st : ConvState) (minutes : Nat) : ConvState :=
  if userCount st.messages ≤ st.maxTurns then st
  else
    let keepRecent := if (st.maxTurns - 2) * 2 < 4 then 4
                      else (st.maxTurns - 2) * 2
    let pre := st.messages.take 2
    let suffix := st.messages.drop (st.messages.length - keepRecent)
    let summary : Message :=
      { role := Role.assistant,
        content := "[Samantekt á fyrri hluta samtals: "
                     ++ get_summary st minutes ++ "]" }
    { st with messages := pre ++ [summary] ++ suffix }

/-- `add_user_message` (lines 39–49): append a user message, bump the
turn count, then trim if needed. -/
def add_user_message (st : ConvState) (text : String) (minutes : Nat) :
    ConvState :=
  trim_if_needed
    { st with messages := st.messages ++ [{ role := Role.user, content := text }],
              turnCount := st.turnCount + 1 }
    minutes

/-- `add_assistant_message` (lines 51–58). -/
def add_assistant_message (st : ConvState) (text : String) : ConvState :=
  { st with messages := st.messages ++ [{ role := Role.assistant, content := text }] }

/-! ### Sentence segmenter (`app/llm/claude_client.py`)

Text is handled as `List Char`.  Python `re`'s `\s` and `str.strip` /
`str.rstrip` match Unicode whitespace; `pySpace` lists those code
points.  `str.lower` is modelled on the Basic Latin and Latin-1 ranges,
which cover the Icelandic alphabet used by the abbreviation set. -/

/-- Code points matched by Python's `\s` (and stripped by `str.strip`). -/
def pySpace (c : Char) : Bool :=
  c.toNat ∈ [9, 10, 11, 12, 13, 28, 29, 30, 31, 32, 133, 160, 5760,
    8192, 8193, 8194, 8195, 8196, 8197, 8198, 8199, 8200, 8201, 8202,
    8232, 8233, 8239, 8287, 12288]

/-- `str.lower` on the ASCII and Latin-1 letters (uppercase `À`–`Þ`
except `×` map 32 code points up, like ASCII `A`–`Z`). -/
def pyLower (c : Char) : Char :=
  if 65 ≤ c.toNat ∧ c.toNat ≤ 90 then Char.ofNat (c.toNat + 32)
  else if 192 ≤ c.toNat ∧ c.toNat ≤ 222 ∧ c.toNat ≠ 215 then
    Char.ofNat (c.toNat + 32)
  else c

/-- `str.rstrip()` on a character list. -/
def rstripList (l : List Char) : List Char :=
  (l.reverse.dropWhile pySpace).reverse

/-- `str.strip()` on a character list. -/
def stripList (l : List Char) : List Char :=
  ((l.dropWhile pySpace).reverse.dropWhile pySpace).reverse

/-- `str.strip()` on a `String` (used by the pipeline model). -/
def pyStrip (s : String) : String :=
  { data := stripList s.data }

/-- `_ICELANDIC_ABBREVIATIONS` (`claude_client.py` lines 19–22); the
`endswith` test over the set is order-independent, so the Python set is
a list here. -/
def ICELANDIC_ABBREVIATIONS : List (List Char) :=
  ["t.d.", "o.s.frv.", "þ.e.", "m.a.", "o.fl.", "þ.m.t.",
   "kr.", "nr.", "dr.", "hr.", "fru.", "st."].map String.toList

/-- `_is_abbreviation_ending` (lines 270–276): lowercase, strip trailing
whitespace, and test whether any configured abbreviation is a suffix. -/
def is_abbreviation_ending (text : List Char) : Bool :=
  ICELANDIC_ABBREVIATIONS.any
    (fun ab => ab.isSuffixOf (rstripList (text.map pyLower)))

/-- Characters matched by the class `[.!?]` of `_SENTENCE_END_RE`. -/
def isSentencePunct (c : Char) : Bool :=
  c = '.' || c = '!' || c = '?'

/-- `_SENTENCE_END_RE.search` (`re.compile(r"[.!?]\s+")`, line 25): the
leftmost punctuation character followed by whitespace, returned as
`(match.start(), match.end())` with the greedy `\s+` extending over the
maximal whitespace run. -/
def findBoundary : List Char → Option (Nat × Nat)
  | [] => none
  | [_] => none
  | a :: b :: rest =>
    if isSentencePunct a && pySpace b then
      some (0, 2 + (rest.takeWhile pySpace).length)
    else
      (findBoundary (b :: rest)).map (fun p => (p.1 + 1, p.2 + 1))

/-- The `while` loop of `_extract_sentences` (lines 236–265), with the
Python accumulation onto `sentences` rendered as consing onto the head of
the result.  On a boundary whose candidate prefix ends in an
abbreviation, the loop re-searches past the false boundary and, when the
recursive extraction of the remainder yields sentences, glues the
candidate onto the first of them with a single space; otherwise it stops
with the buffer unchanged.  On a true boundary the stripped candidate is
emitted (when non-empty) and the loop continues after the match.  `fuel`
only makes the recursion structural; the function is fully executed
whenever `remaining.length ≤ fuel`. -/
def extractGo : Nat → List Char → List (List Char) × List Char
  | _, [] => ([], [])
  | 0, remaining => ([], remaining)
  | fuel + 1, remaining =>
    match findBoundary remaining with
    | none => ([], remaining)
    | some (s, e) =>
      let candidate := remaining.take (s + 1)
      if is_abbreviation_ending candidate then
        let rest := remaining.drop e
        match findBoundary rest with
        | none => ([], remaining)
        | some _ =>
          match extractGo fuel rest with
          | ([], _) => ([], remaining)
          | (s0 :: srest, subRem) =>
            ((candidate ++ ' ' :: s0) :: srest, subRem)
      else
        let sentence := stripList candidate
        let res := extractGo fuel (remaining.drop e)
        (if sentence.isEmpty then res.1 else sentence :: res.1, res.2)

/-- `_extract_sentences(text)` (lines 222–267). -/
def extract_sentences (text : List Char) : List (List Char) × List Char :=
  extractGo text.length text

/-- The segmenting behaviour of `_stream_response` (lines 157–167 and
191–193) restricted to text deltas: each delta is appended to the rolling
buffer, complete sentences are extracted after each delta, and at stream
end a non-empty stripped buffer is flushed as a final sentence. -/
def stream_sentences (deltas : List (List Char)) : List (List Char) :=
  let fin := deltas.foldl
    (fun acc d =>
      let res := extract_sentences (acc.2 ++ d)
      (acc.1 ++ res.1, res.2))
    ([], [])
  fin.1 ++ (if (stripList fin.2).isEmpty then [] else [stripList fin.2])

/-! ### Pipeline interpreter (`_pipeline`, `_speak`, `_play_filler`)

`_pipeline` (lines 274–368) runs as an `asyncio` task.  Its interaction
with the environment is captured by `PipelineEnv`: the STT outcome, the
sentences the chat driver yields and whether the stream then raises, the
value of the `_interrupted` flag at each of its read sites (the flag is
written concurrently by the frame reader, so every read is an oracle),
the `await` point at which `task.cancel()` delivers `CancelledError`
(counted by `RS.tick`; `none` = no cancellation), and the audio bytes the
TTS + transcoding stage yields for a text.  A run accumulates a trace of
the externally visible effects.  `CancelledError` is modelled by the
`Except`-error path: `except Exception` clauses in the source do not
catch it, the `except asyncio.CancelledError` clause at line 357 does
and appends nothing, and `_speak` re-raises it (line 422–423). -/

/-- Externally visible effects of one pipeline run. -/
inductive Ev
  | sttCall
  | ttsSynth (text : String)
  | mediaOut (len : Nat)
  | markOut (name : String)
  | clearOut
  | userAppend (text : String)
  | assistantAppend (text : String)
  | cancelObserved
deriving DecidableEq

/-- Interpreter state threaded through a pipeline run. -/
structure RS where
  trace : List Ev
  tick : Nat
  state : AgentState
  markCounter : Nat
deriving DecidableEq

/-- Environment of one pipeline run (see the section comment). -/
structure PipelineEnv where
  sttResult : Except Unit String
  llmSentences : List String
  llmRaises : Bool
  intrFillerPre : Bool
  intrFillerChunk : Nat → Bool
  intrLLM : Nat → Bool
  intrStep6 : Bool
  intrSpeakPre : Bool
  intrSpeakChunk : Nat → Bool
  intrSpeakPost : Bool
  cancelAt : Option Nat
  ttsMulaw : String → List Nat
  fillerMulaw : Option (List Nat)

/-- One `await` point: if the cancellation is scheduled here the
`CancelledError` is observed and the run unwinds (error path); otherwise
execution continues with the next tick. -/
def aw (e : PipelineEnv) (rs : RS) : Except RS RS :=
  if e.cancelAt = some rs.tick then
    .error { rs with tick := rs.tick + 1,
                     trace := rs.trace ++ [Ev.cancelObserved] }
  else .ok { rs with tick := rs.tick + 1 }

/-- Append one event to the trace. -/
def emit (rs : RS) (ev : Ev) : RS :=
  { rs with trace := rs.trace ++ [ev] }

/-- The frame-sending loop shared by `_speak` (lines 409–414) and
`_play_filler` (lines 478–482): before each chunk the `_interrupted`
flag is read (oracle `intr`, indexed from `k`) and a set flag breaks the
loop; otherwise the chunk is sent as one outbound media frame. -/
def sendChunks (e : PipelineEnv) (intr : Nat → Bool) :
    List (List Nat) → Nat → RS → Except RS RS
  | [], _, rs => .ok rs
  | c :: cs, k, rs =>
    if intr k then .ok rs
    else do
      let rs ← aw e rs
      sendChunks e intr cs (k + 1) (emit rs (Ev.mediaOut c.length))

/-- `_speak(text)` (lines 370–430): empty stripped text returns at once;
otherwise the state becomes `SPEAKING`, TTS synthesis is invoked (and
awaited), a set `_interrupted` flag returns early, the synthesized audio
is transcoded and chunked into 20 ms frames which are sent subject to
the flag, and finally — unless interrupted — a fresh monotonically
numbered playback mark is emitted. -/
def speak (e : PipelineEnv) (text : String) (rs : RS) : Except RS RS :=
  if (pyStrip text).isEmpty then .ok rs
  else do
    let rs := emit { rs with state := AgentState.speaking } (Ev.ttsSynth text)
    let rs ← aw e rs
    if e.intrSpeakPre then .ok rs
    else do
      let rs ← sendChunks e e.intrSpeakChunk
        (chunk_audio (e.ttsMulaw text) 20 8000 1) 0 rs
      if e.intrSpeakPost then .ok rs
      else
        let rs := { rs with markCounter := rs.markCounter + 1 }
        do
          let rs ← aw e rs
          .ok (emit rs (Ev.markOut ("utt_" ++ toString rs.markCounter)))

/-- `_play_filler` (lines 464–484): a cached filler (already transcoded
to μ-law in the model) is chunked and sent subject to the
`_interrupted` flag; a missing cache entry is a no-op. -/
def playFiller (e : PipelineEnv) (rs : RS) : Except RS RS :=
  match e.fillerMulaw with
  | none => .ok rs
  | some audio => sendChunks e e.intrFillerChunk (chunk_audio audio 20 8000 1) 0 rs

/-- The accumulation performed by the `async for` loop of `_pipeline`
step 5 (lines 319–326), as a pure function of the environment: sentences
are pulled until the `_interrupted` flag reads true, each appended with a
trailing space.  Returns the accumulated text and whether the loop broke
early. -/
def llmAccumGo (e : PipelineEnv) : List String → Nat → String → String × Bool
  | [], _, acc => (acc, false)
  | s :: rest, k, acc =>
    if e.intrLLM k then (acc, true)
    else llmAccumGo e rest (k + 1) (acc ++ s ++ " ")

/-- Accumulated chat response and early-break flag of a run. -/
def llmAccum (e : PipelineEnv) : String × Bool :=
  llmAccumGo e e.llmSentences 0 ""

/-- The `async for` loop of `_pipeline` step 5 in the interpreter:
each pull of a sentence is an `await`. -/
def llmConsume (e : PipelineEnv) :
    List String → Nat → String → RS → Except RS (String × Bool × RS)
  | [], _, acc, rs => .ok (acc, false, rs)
  | s :: rest, k, acc, rs => do
    let rs ← aw e rs
    if e.intrLLM k then .ok (acc, true, rs)
    else llmConsume e rest (k + 1) (acc ++ s ++ " ") rs

/-- Steps 6 and 7 of `_pipeline` (lines 341–348): when the accumulated
response is non-empty and the `_interrupted` flag is clear, send a
`clear` control (cutting the filler) and speak the stripped response;
then — whenever the stripped response is non-empty, interrupted or not —
append it as the assistant message. -/
def step67 (e : PipelineEnv) (full : String) (rs : RS) : Except RS RS := do
  let rs ←
    if !(pyStrip full).isEmpty && !e.intrStep6 then do
      let rs ← aw e rs
      speak e (pyStrip full) (emit rs Ev.clearOut)
    else .ok rs
  if (pyStrip full).isEmpty then .ok rs
  else .ok (emit rs (Ev.assistantAppend (pyStrip full)))

/-- Steps 4–7 of `_pipeline` (lines 308–348), entered after the filler:
append the user message, consume the chat stream (each pull an `await`),
fall back to the apology on a raise, then steps 6–7. -/
def pipelineTail (e : PipelineEnv) (transcript : String) (rs : RS) :
    Except RS RS := do
  let rs := emit rs (Ev.userAppend transcript)
  let r ← llmConsume e e.llmSentences 0 "" rs
  match r with
  | (full, true, rs) => step67 e full rs
  | (full, false, rs) => do
    let rs ← aw e rs
    if e.llmRaises then speak e "Afsakið, augnablik." rs
    else step67 e full rs

/-- The `try` body plus `except`-branches of `_pipeline` (lines 274–365):
transcode (pure), STT with the apology fallback, empty-transcript early
return, filler unless already interrupted, then `pipelineTail`. -/
def pipelineBody (e : PipelineEnv) (rs : RS) : Except RS RS := do
  let rs := emit rs Ev.sttCall
  let rs ← aw e rs
  match e.sttResult with
  | .error _ => speak e "Afsakið, gætirðu endurtekið?" rs
  | .ok t =>
    let transcript := pyStrip t
    if transcript.isEmpty then .ok { rs with state := AgentState.listening }
    else do
      let rs ← if e.intrFillerPre then .ok rs else playFiller e rs
      pipelineTail e transcript rs

/-- The `finally` clause (lines 366–368): force the state back to
`LISTENING`. -/
def finalizeRS (rs : RS) : RS :=
  if rs.state = AgentState.listening then rs
  else { rs with state := AgentState.listening }

/-- The run state `_process_utterance` spawns the pipeline in
(`PROCESSING`, empty trace). -/
def rsInit : RS :=
  { trace := [], tick := 0, state := AgentState.processing, markCounter := 0 }

/-- A full `_pipeline` run from `rsInit`: the result state after the
`finally` clause, and whether the run was cancelled. -/
def runPipeline (e : PipelineEnv) : RS × Bool :=
  match pipelineBody e rsInit with
  | .ok rs => (finalizeRS rs, false)
  | .error rs => (finalizeRS rs, true)

/-- The assistant-history appends of a trace. -/
def assistantAppends (tr : List Ev) : List Ev :=
  tr.filter (fun ev => match ev with | Ev.assistantAppend _ => true | _ => false)

/-- The user-history appends of a trace. -/
def userAppends (tr : List Ev) : List Ev :=
  tr.filter (fun ev => match ev with | Ev.userAppend _ => true | _ => false)

/-- The TTS invocations of a trace. -/
def synthCalls (tr : List Ev) : List Ev :=
  tr.filter (fun ev => match ev with | Ev.ttsSynth _ => true | _ => false)

/-! ### Spec-side definitions and concrete fixtures

The following definitions transcribe the *specification's* wording (not
the code) for the refinement-style claims, plus concrete inputs used by
witnesses and counterexamples. -/

/-- Spec wording for the per-byte energy: "the average of `|byte − 0x7F|`
when `byte < 0x80` and `0xFF − byte` otherwise". -/
def specByteEnergy (b : Nat) : ℤ :=
  if b < 0x80 then |(b : ℤ) - 0x7F| else 0xFF - b

/-- Spec-side mean energy of a non-empty frame, as an exact rational. -/
def specMeanEnergy (audio : List Nat) : ℚ :=
  ((audio.map specByteEnergy).sum : ℚ) / audio.length

/-- Claim C2's dispatch condition read literally: current frame silent,
speech previously observed, the elapsed silence run *strictly* exceeds
the threshold, and the buffer holds strictly more than
`MIN_AUDIO_BYTES`. -/
def specStrictDispatch (thr : Int) (st : SessionState) (frame : List Nat)
    (now : ℚ) : Prop :=
  is_silence frame = true ∧ st.hasSpeech = true
    ∧ (∃ t0, st.silenceStart = some t0 ∧ (thr : ℚ) < (now - t0) * 1000)
    ∧ MIN_AUDIO_BYTES < (st.audioBuffer ++ frame).length

/-- Substring containment on `String`. -/
def containsStr (s pat : String) : Prop :=
  ∃ p q, s = p ++ pat ++ q

/-- A session in the `LISTENING` state that has heard speech and is
0.8 s into a silence run, with an empty buffer, about to receive a
481-byte silent frame: the boundary input for claim C2. -/
def listeningAtBoundary : SessionState :=
  { state := AgentState.listening, audioBuffer := [], silenceStart := some 0,
    hasSpeech := true, bargeInFrames := 0, playedMarks := [],
    interrupted := false }

/-- One user turn followed by one assistant reply, as in the overflow
scenario (turn `i` numbered from 1). -/
def scenarioStep (st : ConvState) (i : Nat) : ConvState :=
  add_assistant_message
    (add_user_message st ("u" ++ toString (i + 1)) 0)
    ("a" ++ toString (i + 1))

/-- The overflow scenario: `max_turns = 5`, ten user messages each
followed by an assistant reply. -/
def scenarioFinal : ConvState :=
  (List.range 10).foldl scenarioStep
    { caller := "", maxTurns := 5, messages := [], turnCount := 0 }

/-- The untrimmed transcript of the overflow scenario. -/
def scenarioTranscript : List Message :=
  (List.range 10).foldl
    (fun acc i =>
      acc ++ [{ role := Role.user, content := "u" ++ toString (i + 1) },
              { role := Role.assistant, content := "a" ++ toString (i + 1) }])
    []

/-- The user message `add_user_message` appends. -/
def userMsg (text : String) : Message :=
  { role := Role.user, content := text }

/-- A fresh conversation that overflows on its first user message
(`max_turns = 0`). -/
def convW : ConvState :=
  { caller := "", maxTurns := 0, messages := [], turnCount := 0 }


/-- A pipeline environment with a successful one-word transcription, one
streamed sentence, no interruption and no cancellation; the TTS stage
yields 170 bytes of audio (two 20 ms frames after padding). -/
def envBase : PipelineEnv :=
  { sttResult := .ok "halló", llmSentences := ["Góðan daginn!"],
    llmRaises := false, intrFillerPre := false,
    intrFillerChunk := fun _ => false, intrLLM := fun _ => false,
    intrStep6 := false, intrSpeakPre := false,
    intrSpeakChunk := fun _ => false, intrSpeakPost := false,
    cancelAt := none, ttsMulaw := fun _ => List.replicate 170 7,
    fillerMulaw := none }

/-- Project an `Except RS RS` outcome to its carried state (the run
state at normal return or at the point the cancellation unwound). -/
def exOut : Except RS RS → RS
  | .ok rs => rs
  | .error rs => rs

/-- Advance the await tick (the successful outcome of `aw`). -/
def tickSucc (rs : RS) : RS :=
  { rs with tick := rs.tick + 1 }

/-! ## Theorems -/

/-- `tickSucc` does not touch the trace. -/
@[simp] theorem tickSucc_trace (rs : RS) : (tickSucc rs).trace = rs.trace :=
  rfl

/-- `emit` appends one event. -/
@[simp] theorem emit_trace (rs : RS) (ev : Ev) :
    (emit rs ev).trace = rs.trace ++ [ev] := rfl

/-- `Except.bind` applied to a success, specialized for rewriting the
interpreter's `do` chains. -/
theorem exbind_ok {ε α β : Type} (x : α) (f : α → Except ε β) :
    (Bind.bind (Except.ok x : Except ε α) f) = f x := rfl

/-! Distribution of the three trace filters over list constructors. -/

@[simp] theorem userAppends_nil : userAppends [] = [] := rfl
@[simp] theorem assistantAppends_nil : assistantAppends [] = [] := rfl
@[simp] theorem synthCalls_nil : synthCalls [] = [] := rfl

/-- The filters distribute over `++`. -/
@[simp] theorem userAppends_append (a b : List Ev) :
    userAppends (a ++ b) = userAppends a ++ userAppends b :=
  List.filter_append ..

@[simp] theorem assistantAppends_append (a b : List Ev) :
    assistantAppends (a ++ b) = assistantAppends a ++ assistantAppends b :=
  List.filter_append ..

@[simp] theorem synthCalls_append (a b : List Ev) :
    synthCalls (a ++ b) = synthCalls a ++ synthCalls b :=
  List.filter_append ..

@[simp] theorem userAppends_cons_stt (l : List Ev) :
    userAppends (Ev.sttCall :: l) = userAppends l := rfl
@[simp] theorem userAppends_cons_synth (t : String) (l : List Ev) :
    userAppends (Ev.ttsSynth t :: l) = userAppends l := rfl
@[simp] theorem userAppends_cons_media (n : Nat) (l : List Ev) :
    userAppends (Ev.mediaOut n :: l) = userAppends l := rfl
@[simp] theorem userAppends_cons_mark (n : String) (l : List Ev) :
    userAppends (Ev.markOut n :: l) = userAppends l := rfl
@[simp] theorem userAppends_cons_clear (l : List Ev) :
    userAppends (Ev.clearOut :: l) = userAppends l := rfl
@[simp] theorem userAppends_cons_user (t : String) (l : List Ev) :
    userAppends (Ev.userAppend t :: l) = Ev.userAppend t :: userAppends l :=
  rfl
@[simp] theorem userAppends_cons_assistant (t : String) (l : List Ev) :
    userAppends (Ev.assistantAppend t :: l) = userAppends l := rfl
@[simp] theorem userAppends_cons_cancel (l : List Ev) :
    userAppends (Ev.cancelObserved :: l) = userAppends l := rfl

@[simp] theorem assistantAppends_cons_stt (l : List Ev) :
    assistantAppends (Ev.sttCall :: l) = assistantAppends l := rfl
@[simp] theorem assistantAppends_cons_synth (t : String) (l : List Ev) :
    assistantAppends (Ev.ttsSynth t :: l) = assistantAppends l := rfl
@[simp] theorem assistantAppends_cons_media (n : Nat) (l : List Ev) :
    assistantAppends (Ev.mediaOut n :: l) = assistantAppends l := rfl
@[simp] theorem assistantAppends_cons_mark (n : String) (l : List Ev) :
    assistantAppends (Ev.markOut n :: l) = assistantAppends l := rfl
@[simp] theorem assistantAppends_cons_clear (l : List Ev) :
    assistantAppends (Ev.clearOut :: l) = assistantAppends l := rfl
@[simp] theorem assistantAppends_cons_user (t : String) (l : List Ev) :
    assistantAppends (Ev.userAppend t :: l) = assistantAppends l := rfl
@[simp] theorem assistantAppends_cons_assistant (t : String) (l : List Ev) :
    assistantAppends (Ev.assistantAppend t :: l)
      = Ev.assistantAppend t :: assistantAppends l := rfl
@[simp] theorem assistantAppends_cons_cancel (l : List Ev) :
    assistantAppends (Ev.cancelObserved :: l) = assistantAppends l := rfl

@[simp] theorem synthCalls_cons_stt (l : List Ev) :
    synthCalls (Ev.sttCall :: l) = synthCalls l := rfl
@[simp] theorem synthCalls_cons_synth (t : String) (l : List Ev) :
    synthCalls (Ev.ttsSynth t :: l) = Ev.ttsSynth t :: synthCalls l := rfl
@[simp] theorem synthCalls_cons_media (n : Nat) (l : List Ev) :
    synthCalls (Ev.mediaOut n :: l) = synthCalls l := rfl
@[simp] theorem synthCalls_cons_mark (n : String) (l : List Ev) :
    synthCalls (Ev.markOut n :: l) = synthCalls l := rfl
@[simp] theorem synthCalls_cons_clear (l : List Ev) :
    synthCalls (Ev.clearOut :: l) = synthCalls l := rfl
@[simp] theorem synthCalls_cons_user (t : String) (l : List Ev) :
    synthCalls (Ev.userAppend t :: l) = synthCalls l := rfl
@[simp] theorem synthCalls_cons_assistant (t : String) (l : List Ev) :
    synthCalls (Ev.assistantAppend t :: l) = synthCalls l := rfl
@[simp] theorem synthCalls_cons_cancel (l : List Ev) :
    synthCalls (Ev.cancelObserved :: l) = synthCalls l := rfl

/-- `aw` without a scheduled cancellation only advances the tick. -/
theorem aw_none {e : PipelineEnv} (h : e.cancelAt = none) (rs : RS) :
    aw e rs = .ok (tickSucc rs) := by
  simp [aw, h, tickSucc]

/-- Without cancellation, the chunk-sending loop succeeds and emits only
media frames (all history and synthesis filters unchanged). -/
theorem sendChunks_none {e : PipelineEnv} (h : e.cancelAt = none)
    (intr : Nat → Bool) :
    ∀ (chunks : List (List Nat)) (k : Nat) (rs : RS),
      ∃ rs2, sendChunks e intr chunks k rs = .ok rs2
        ∧ userAppends rs2.trace = userAppends rs.trace
        ∧ assistantAppends rs2.trace = assistantAppends rs.trace
        ∧ synthCalls rs2.trace = synthCalls rs.trace := by
  intro chunks
  induction chunks with
  | nil => intro k rs; exact ⟨rs, rfl, rfl, rfl, rfl⟩
  | cons c cs ih =>
    intro k rs
    by_cases hik : intr k
    · exact ⟨rs, by simp [sendChunks, hik], rfl, rfl, rfl⟩
    · obtain ⟨rs2, h2, hu, ha, hs⟩ := ih (k + 1)
        (emit (tickSucc rs) (Ev.mediaOut c.length))
      refine ⟨rs2, ?_, ?_, ?_, ?_⟩
      · simp only [sendChunks, hik, Bool.false_eq_true, if_false,
          aw_none h, exbind_ok]
        exact h2
      · rw [hu]; simp
      · rw [ha]; simp
      · rw [hs]; simp

/-- Without cancellation, `speak` succeeds; it performs exactly one TTS
synthesis when the stripped text is non-empty, none otherwise, and
appends nothing to the history. -/
theorem speak_none {e : PipelineEnv} (h : e.cancelAt = none)
    (text : String) (rs : RS) :
    ∃ rs2, speak e text rs = .ok rs2
      ∧ userAppends rs2.trace = userAppends rs.trace
      ∧ assistantAppends rs2.trace = assistantAppends rs.trace
      ∧ synthCalls rs2.trace = synthCalls rs.trace
          ++ (if (pyStrip text).isEmpty then [] else [Ev.ttsSynth text]) := by
  by_cases he : (pyStrip text).isEmpty
  · exact ⟨rs, by simp [speak, he], rfl, rfl, by simp [he]⟩
  · simp only [speak, he, Bool.false_eq_true, if_false, aw_none h, exbind_ok]
    by_cases hpre : e.intrSpeakPre
    · simp only [hpre, if_true]
      refine ⟨_, rfl, ?_, ?_, ?_⟩ <;> simp [he]
    · simp only [hpre, Bool.false_eq_true, if_false]
      obtain ⟨rsA, hA, huA, haA, hsA⟩ := sendChunks_none h e.intrSpeakChunk
        (chunk_audio (e.ttsMulaw text) 20 8000 1) 0
        (tickSucc (emit { rs with state := AgentState.speaking }
          (Ev.ttsSynth text)))
      rw [hA]
      simp only [exbind_ok]
      by_cases hpost : e.intrSpeakPost
      · simp only [hpost, if_true]
        refine ⟨rsA, rfl, ?_, ?_, ?_⟩
        · rw [huA]; simp
        · rw [haA]; simp
        · rw [hsA]; simp [he]
      · simp only [hpost, Bool.false_eq_true, if_false, aw_none h,
          exbind_ok]
        refine ⟨_, rfl, ?_, ?_, ?_⟩
        · simp only [emit_trace, tickSucc_trace, userAppends_append]
          rw [huA]
          simp
        · simp only [emit_trace, tickSucc_trace, assistantAppends_append]
          rw [haA]
          simp
        · simp only [emit_trace, tickSucc_trace, synthCalls_append]
          rw [hsA]
          simp [he]

/-- Without cancellation, the filler playback succeeds and leaves every
filter unchanged. -/
theorem playFiller_none {e : PipelineEnv} (h : e.cancelAt = none) (rs : RS) :
    ∃ rs2, playFiller e rs = .ok rs2
      ∧ userAppends rs2.trace = userAppends rs.trace
      ∧ assistantAppends rs2.trace = assistantAppends rs.trace
      ∧ synthCalls rs2.trace = synthCalls rs.trace := by
  cases hf : e.fillerMulaw with
  | none => exact ⟨rs, by simp [playFiller, hf], rfl, rfl, rfl⟩
  | some audio =>
    obtain ⟨rs2, h2, hu, ha, hs⟩ := sendChunks_none h e.intrFillerChunk
      (chunk_audio audio 20 8000 1) 0 rs
    exact ⟨rs2, by simp [playFiller, hf, h2], hu, ha, hs⟩

/-- Without cancellation, the chat-consumption loop succeeds, computes
the pure accumulation `llmAccumGo`, and emits nothing. -/
theorem llmConsume_none {e : PipelineEnv} (h : e.cancelAt = none) :
    ∀ (sentences : List String) (k : Nat) (acc : String) (rs : RS),
      ∃ rs2, llmConsume e sentences k acc rs
          = .ok ((llmAccumGo e sentences k acc).1,
                 (llmAccumGo e sentences k acc).2, rs2)
        ∧ rs2.trace = rs.trace := by
  intro sentences
  induction sentences with
  | nil => intro k acc rs; exact ⟨rs, rfl, rfl⟩
  | cons s rest ih =>
    intro k acc rs
    by_cases hik : e.intrLLM k
    · refine ⟨tickSucc rs, ?_, rfl⟩
      simp [llmConsume, aw_none h, exbind_ok, hik, llmAccumGo]
    · obtain ⟨rs2, h2, ht⟩ := ih (k + 1) (acc ++ s ++ " ") (tickSucc rs)
      refine ⟨rs2, ?_, by rw [ht]; rfl⟩
      simp [llmConsume, aw_none h, exbind_ok, hik, llmAccumGo, h2]

/-- Without cancellation, steps 6–7 succeed, append the stripped
response as the sole assistant message exactly when it is non-empty, and
append no user message. -/
theorem step67_none {e : PipelineEnv} (h : e.cancelAt = none)
    (full : String) (rs : RS) :
    ∃ rs2, step67 e full rs = .ok rs2
      ∧ userAppends rs2.trace = userAppends rs.trace
      ∧ assistantAppends rs2.trace = assistantAppends rs.trace
          ++ (if (pyStrip full).isEmpty then []
              else [Ev.assistantAppend (pyStrip full)]) := by
  by_cases he : (pyStrip full).isEmpty
  · refine ⟨rs, ?_, rfl, by simp [he]⟩
    simp [step67, he, exbind_ok]
  · by_cases hi6 : e.intrStep6
    · refine ⟨emit rs (Ev.assistantAppend (pyStrip full)), ?_, ?_, ?_⟩
      · simp [step67, he, hi6, exbind_ok]
      · simp
      · simp [he]
    · simp only [step67, he, hi6, Bool.not_false, Bool.not_true,
        Bool.and_false, Bool.and_true, Bool.false_eq_true, if_false,
        if_true, aw_none h, exbind_ok]
      obtain ⟨rsA, hA, huA, haA, -⟩ := speak_none h (pyStrip full)
        (emit (tickSucc rs) Ev.clearOut)
      rw [hA]
      simp only [exbind_ok]
      refine ⟨emit rsA (Ev.assistantAppend (pyStrip full)), rfl, ?_, ?_⟩
      · simp only [emit_trace, tickSucc_trace, userAppends_append] at huA ⊢
        rw [huA]
        simp
      · simp only [emit_trace, tickSucc_trace,
          assistantAppends_append] at haA ⊢
        rw [haA]
        simp [he]

/-- The `finally` clause does not touch the trace. -/
@[simp] theorem finalizeRS_trace (rs : RS) :
    (finalizeRS rs).trace = rs.trace := by
  unfold finalizeRS
  split <;> rfl

/-- The `finally` clause always leaves the state `LISTENING`. -/
theorem finalizeRS_state (rs : RS) :
    (finalizeRS rs).state = AgentState.listening := by
  unfold finalizeRS
  split
  · assumption
  · rfl

/-- The initial run state carries an empty trace. -/
@[simp] theorem rsInit_trace : rsInit.trace = [] := rfl

/-- C5: when STT raises and the run is not cancelled, the pipeline
invokes TTS exactly once — with the fixed apology `"Afsakið, gætirðu
endurtekið?"`, which contains `"Afsakið"` — appends neither a user nor
an assistant message, and completes with the session in `LISTENING`. -/
theorem pipeline_stt_failure_apology (e : PipelineEnv)
    (hc : e.cancelAt = none) (hstt : e.sttResult = .error ()) :
    synthCalls (runPipeline e).1.trace
      = [Ev.ttsSynth "Afsakið, gætirðu endurtekið?"]
    ∧ containsStr "Afsakið, gætirðu endurtekið?" "Afsakið"
    ∧ userAppends (runPipeline e).1.trace = []
    ∧ assistantAppends (runPipeline e).1.trace = []
    ∧ (runPipeline e).1.state = AgentState.listening
    ∧ (runPipeline e).2 = false := by
  obtain ⟨rsA, hA, huA, haA, hsA⟩ := speak_none hc
    "Afsakið, gætirðu endurtekið?" (tickSucc (emit rsInit Ev.sttCall))
  have hrun : runPipeline e = (finalizeRS rsA, false) := by
    unfold runPipeline pipelineBody
    simp only [aw_none hc, exbind_ok, hstt]
    rw [hA]
  rw [hrun]
  have hemp : (pyStrip "Afsakið, gætirðu endurtekið?").isEmpty = false := by
    decide
  refine ⟨?_, ⟨"", ", gætirðu endurtekið?", by decide⟩, ?_, ?_, ?_, rfl⟩
  · rw [finalizeRS_trace, hsA, hemp]
    simp
  · rw [finalizeRS_trace, huA]
    simp
  · rw [finalizeRS_trace, haA]
    simp
  · exact finalizeRS_state rsA

/-- Witness for `pipeline_stt_failure_apology` at a concrete
environment. -/
theorem pipeline_stt_failure_apology_witness :
    (({ envBase with sttResult := .error () } : PipelineEnv).cancelAt = none
      ∧ ({ envBase with sttResult := .error () } : PipelineEnv).sttResult
          = .error ())
    ∧ (synthCalls
        (runPipeline { envBase with sttResult := .error () }).1.trace
          = [Ev.ttsSynth "Afsakið, gætirðu endurtekið?"]
      ∧ containsStr "Afsakið, gætirðu endurtekið?" "Afsakið"
      ∧ userAppends
          (runPipeline { envBase with sttResult := .error () }).1.trace = []
      ∧ assistantAppends
          (runPipeline { envBase with sttResult := .error () }).1.trace = []
      ∧ (runPipeline { envBase with sttResult := .error () }).1.state
          = AgentState.listening
      ∧ (runPipeline { envBase with sttResult := .error () }).2 = false) :=
  ⟨⟨rfl, rfl⟩,
   pipeline_stt_failure_apology { envBase with sttResult := .error () }
     rfl rfl⟩

/-- Without cancellation, the post-filler tail of the pipeline succeeds,
appends the transcript as the sole user message, and appends the
stripped accumulated response as the sole assistant message unless the
chat stream raised (after being consumed to its end) or the accumulated
response strips to empty. -/
theorem pipelineTail_none {e : PipelineEnv} (hc : e.cancelAt = none)
    (tr : String) (rsF : RS) :
    ∃ rsZ, pipelineTail e tr rsF = .ok rsZ
      ∧ userAppends rsZ.trace
          = userAppends rsF.trace ++ [Ev.userAppend tr]
      ∧ assistantAppends rsZ.trace = assistantAppends rsF.trace
          ++ (if ((llmAccum e).2 = false ∧ e.llmRaises = true)
                ∨ (pyStrip (llmAccum e).1).isEmpty = true then []
              else [Ev.assistantAppend (pyStrip (llmAccum e).1)]) := by
  unfold pipelineTail
  dsimp only
  obtain ⟨rsL, hL, htL⟩ := llmConsume_none hc e.llmSentences 0 ""
    (emit rsF (Ev.userAppend tr))
  rw [hL]
  simp only [exbind_ok]
  have huL : userAppends rsL.trace
      = userAppends rsF.trace ++ [Ev.userAppend tr] := by
    rw [htL]; simp
  have haL : assistantAppends rsL.trace = assistantAppends rsF.trace := by
    rw [htL]; simp
  cases hbroke : (llmAccumGo e e.llmSentences 0 "").2 with
  | true =>
    dsimp only
    obtain ⟨rsS, hS, huS, haS⟩ := step67_none hc
      (llmAccumGo e e.llmSentences 0 "").1 rsL
    refine ⟨rsS, hS, ?_, ?_⟩
    · rw [huS, huL]
    · rw [haS, haL]
      by_cases hemp : (pyStrip (llmAccumGo e e.llmSentences 0 "").1).isEmpty
      · simp [llmAccum, hemp]
      · simp [llmAccum, hemp, hbroke]
  | false =>
    dsimp only
    simp only [aw_none hc, exbind_ok]
    by_cases hlr : e.llmRaises
    · simp only [hlr, if_true]
      obtain ⟨rsS, hS, huS, haS, -⟩ := speak_none hc "Afsakið, augnablik."
        (tickSucc rsL)
      refine ⟨rsS, hS, ?_, ?_⟩
      · rw [huS, tickSucc_trace, huL]
      · rw [haS, tickSucc_trace, haL]
        have hb2 : (llmAccum e).2 = false := by simp [llmAccum, hbroke]
        simp [hb2]
    · simp only [hlr, Bool.false_eq_true, if_false]
      obtain ⟨rsS, hS, huS, haS⟩ := step67_none hc
        (llmAccumGo e e.llmSentences 0 "").1 (tickSucc rsL)
      refine ⟨rsS, hS, ?_, ?_⟩
      · rw [huS, tickSucc_trace, huL]
      · rw [haS, tickSucc_trace, haL]
        by_cases hemp : (pyStrip (llmAccumGo e e.llmSentences 0 "").1).isEmpty
        · simp [llmAccum, hemp]
        · simp [llmAccum, hemp, hlr, hbroke]

/-- C3 (amended): for a non-cancelled run with a non-empty trimmed
transcription, exactly one user message (the transcript) is appended,
and exactly one assistant message — the stripped accumulated response —
is appended *unless* the chat stream raised after the loop consumed it
to the end, or the accumulated response strips to empty (e.g. the
stream yielded no sentence before an interruption or its end), in which
case none is. -/
theorem pipeline_assistant_append_once (e : PipelineEnv) (t : String)
    (hc : e.cancelAt = none) (hstt : e.sttResult = .ok t)
    (hne : (pyStrip t).isEmpty = false) :
    userAppends (runPipeline e).1.trace = [Ev.userAppend (pyStrip t)]
    ∧ assistantAppends (runPipeline e).1.trace
      = (if ((llmAccum e).2 = false ∧ e.llmRaises = true)
            ∨ (pyStrip (llmAccum e).1).isEmpty = true then []
         else [Ev.assistantAppend (pyStrip (llmAccum e).1)]) := by
  unfold runPipeline pipelineBody
  simp only [aw_none hc, exbind_ok, hstt, hne, Bool.false_eq_true, if_false]
  by_cases hfp : e.intrFillerPre
  · simp only [hfp, if_true]
    obtain ⟨rsZ, hZ, huZ, haZ⟩ := pipelineTail_none hc (pyStrip t)
      (tickSucc (emit rsInit Ev.sttCall))
    rw [hZ]
    constructor
    · rw [finalizeRS_trace, huZ]
      simp
    · rw [finalizeRS_trace, haZ]
      simp
  · simp only [hfp, Bool.false_eq_true, if_false]
    obtain ⟨rsF, hF, huF, haF, -⟩ := playFiller_none hc
      (tickSucc (emit rsInit Ev.sttCall))
    rw [hF]
    simp only [exbind_ok]
    obtain ⟨rsZ, hZ, huZ, haZ⟩ := pipelineTail_none hc (pyStrip t) rsF
    rw [hZ]
    constructor
    · rw [finalizeRS_trace, huZ, huF]
      simp
    · rw [finalizeRS_trace, haZ, haF]
      simp

/-- Witness for `pipeline_assistant_append_once` at a concrete
environment: one streamed sentence, no raise, no interruption. -/
theorem pipeline_assistant_append_once_witness :
    (envBase.cancelAt = none ∧ envBase.sttResult = .ok "halló"
      ∧ (pyStrip "halló").isEmpty = false)
    ∧ (userAppends (runPipeline envBase).1.trace
        = [Ev.userAppend (pyStrip "halló")]
      ∧ assistantAppends (runPipeline envBase).1.trace
        = (if ((llmAccum envBase).2 = false ∧ envBase.llmRaises = true)
              ∨ (pyStrip (llmAccum envBase).1).isEmpty = true then []
           else [Ev.assistantAppend (pyStrip (llmAccum envBase).1)])) :=
  ⟨⟨rfl, rfl, by decide⟩,
   pipeline_assistant_append_once envBase "halló" rfl rfl (by decide)⟩

set_option maxRecDepth 40000 in
/-- C3 counterexample: with a non-empty transcription (`"halló"`), no
cancellation and a chat stream that ends without yielding any sentence,
the run appends *no* assistant message — the claim's "exactly one
assistant message unless cancelled" fails. -/
theorem pipeline_assistant_append_counterexample :
    (runPipeline { envBase with llmSentences := [] }).2 = false
    ∧ (pyStrip "halló").isEmpty = false
    ∧ userAppends
        (runPipeline { envBase with llmSentences := [] }).1.trace
        = [Ev.userAppend "halló"]
    ∧ assistantAppends
        (runPipeline { envBase with llmSentences := [] }).1.trace = [] := by
  refine ⟨?_, by decide, ?_, ?_⟩ <;> decide


set_option maxRecDepth 8000 in
/-- Companding round trip for a single byte value, checked over all 256
μ-law codes: re-encoding the decoded sample (through the 16-bit
little-endian store/load of `audioop`) yields a byte with the same
decoded sample. -/
theorem st_ulaw2linear16_roundByte : ∀ u < 256,
    st_ulaw2linear16 (lin2ulawSample (bytesToInt16
      ((st_ulaw2linear16 u % 65536).toNat % 256)
      ((st_ulaw2linear16 u % 65536).toNat / 256))) = st_ulaw2linear16 u := by
  decide

/-- The decoder only reads its argument mod 256. -/
theorem st_ulaw2linear16_mod (u : Nat) :
    st_ulaw2linear16 (u % 256) = st_ulaw2linear16 u := by
  have h : u % 256 % 256 = u % 256 := by omega
  simp [st_ulaw2linear16, h]

/-- C7: for every μ-law byte string, narrowband → PCM16 → narrowband at
the matched rate 8000 Hz preserves every decoded PCM sample value
exactly (`pcm16_to_mulaw(mulaw_to_pcm16(x, 8000), 8000)` decodes to the
same samples as `x`). -/
theorem mulaw_pcm_mulaw_roundtrip_decoded (x : List Nat) :
    (pcm16_to_mulaw_8000 (mulaw_to_pcm16_8000 x)).map st_ulaw2linear16
      = x.map st_ulaw2linear16 := by
  induction x with
  | nil => rfl
  | cons b xs ih =>
    have hb : b % 256 < 256 := Nat.mod_lt _ (by norm_num)
    have h1 := st_ulaw2linear16_roundByte (b % 256) hb
    rw [st_ulaw2linear16_mod] at h1
    simp only [mulaw_to_pcm16_8000, pcm16_to_mulaw_8000, List.flatMap,
      List.map_cons, List.flatten, int16ToBytes, List.cons_append,
      List.append_eq, List.nil_append, List.append_nil, pcm16Samples] at ih ⊢
    rw [h1, ih]

set_option maxRecDepth 8000 in
/-- The code's per-byte energy agrees with the spec's formula on byte
values. -/
theorem byteEnergy_cast : ∀ b < 256, (byteEnergy b : ℤ) = specByteEnergy b := by
  decide

/-- Sum version of `byteEnergy_cast`. -/
theorem energySum_cast (audio : List Nat) (hb : ∀ b ∈ audio, b < 256) :
    (((audio.map byteEnergy).sum : ℕ) : ℤ) = (audio.map specByteEnergy).sum := by
  induction audio with
  | nil => simp
  | cons a l ih =>
    have ha := byteEnergy_cast a (hb a (by simp))
    have ih2 := ih (fun b h => hb b (by simp [h]))
    simp only [List.map_cons, List.sum_cons, Nat.cast_add]
    rw [ha, ih2]

/-- C9: a non-empty narrowband frame is classified silent exactly when
the mean of the spec's per-byte energy — `|byte − 0x7F|` for bytes
`< 0x80` and `0xFF − byte` otherwise — is strictly below the threshold
(default 10). -/
theorem is_silence_iff_specMean (audio : List Nat) (t : Nat)
    (hne : audio ≠ []) (hb : ∀ b ∈ audio, b < 256) :
    (is_silence audio t = true ↔ specMeanEnergy audio < t) := by
  have hsum := energySum_cast audio hb
  have hcast : (((audio.map byteEnergy).sum : ℕ) : ℚ)
      = (((audio.map specByteEnergy).sum : ℤ) : ℚ) := by
    rw [← hsum, Int.cast_natCast]
  have hemp : audio.isEmpty = false := by
    simpa [List.isEmpty_iff] using hne
  simp only [is_silence, hemp, Bool.false_eq_true, if_false,
    decide_eq_true_eq, specMeanEnergy, hcast]

/-- Witness for `is_silence_iff_specMean` at the one-byte frame `[0x7F]`
and the default threshold. -/
theorem is_silence_iff_specMean_witness :
    (([127] : List Nat) ≠ [] ∧ ∀ b ∈ ([127] : List Nat), b < 256)
    ∧ (is_silence [127] 10 = true ↔ specMeanEnergy [127] < 10) :=
  ⟨⟨by decide, by decide⟩, is_silence_iff_specMean [127] 10 (by decide) (by decide)⟩

/-- C10: any inbound mark in `SPEAKING` moves the session to
`LISTENING` — the handler never compares the received name against the
emitted mark names — and in every state the name joins the
acknowledged-marks set. -/
theorem handle_mark_spec (st : SessionState) (name : String) :
    (handle_mark st name).state
      = (if st.state = AgentState.speaking then AgentState.listening
         else st.state)
    ∧ name ∈ (handle_mark st name).playedMarks := by
  refine ⟨rfl, ?_⟩
  simp only [handle_mark]
  by_cases h : name ∈ st.playedMarks <;> simp [h]

/-- C2 (amended): in the `LISTENING` state the frame handler dispatches
the pipeline exactly when the (non-empty) current frame is silent,
speech has been observed, the elapsed silence run is **at least** the
configured threshold (the source compares with `>=`, line 220), and the
extended utterance buffer holds strictly more than `MIN_AUDIO_BYTES`
(480 bytes, 60 ms of narrowband audio); every dispatched utterance is
the extended buffer, hence longer than 480 bytes — in particular an
empty buffer is never dispatched. -/
theorem handle_media_listening_dispatch_iff (thr : Int) (st : SessionState)
    (frame : List Nat) (now : ℚ)
    (hst : st.state = AgentState.listening) :
    ((handle_media thr st frame now).dispatched.isSome = true ↔
      (frame ≠ [] ∧ is_silence frame = true ∧ st.hasSpeech = true
        ∧ (∃ t0, st.silenceStart = some t0 ∧ (thr : ℚ) ≤ (now - t0) * 1000)
        ∧ MIN_AUDIO_BYTES < (st.audioBuffer ++ frame).length))
    ∧ (∀ u, (handle_media thr st frame now).dispatched = some u →
        u = st.audioBuffer ++ frame ∧ MIN_AUDIO_BYTES < u.length) := by
  by_cases hf : frame = []
  · subst hf
    simp [handle_media]
  · have hf2 : frame.isEmpty = false := by simpa [List.isEmpty_iff] using hf
    by_cases hsil : is_silence frame = false
    · have hsil2 : ¬ is_silence frame = true := by simp [hsil]
      simp [handle_media, hst, hf2, hsil, hsil2]
    · have hsil2 : is_silence frame = true := by
        revert hsil
        cases is_silence frame <;> simp
      cases hss : st.silenceStart with
      | none => simp [handle_media, hst, hf2, hsil, hsil2, hss]
      | some t0 =>
        by_cases h1 : st.hasSpeech = true
        · by_cases h2 : (thr : ℚ) ≤ (now - t0) * 1000
          · by_cases h3 : MIN_AUDIO_BYTES < st.audioBuffer.length + frame.length
            · simp [handle_media, hst, hf2, hsil, hsil2, hss, h1, h2, h3, hf]
            · simp [handle_media, hst, hf2, hsil, hsil2, hss, h1, h2, h3]
          · simp [handle_media, hst, hf2, hsil, hsil2, hss, h1, h2]
        · simp [handle_media, hst, hf2, hsil, hsil2, hss, h1]

set_option maxRecDepth 100000 in
/-- C2 counterexample: with threshold 800 ms, a silent 481-byte frame
arriving exactly 0.8 s (= 4/5 s) after silence started *is* dispatched
by the code (the comparison at `media_stream.py` line 220 is `>=`),
while the claim's strict reading ("strictly exceeds") says it must not
be. -/
theorem handle_media_strict_threshold_counterexample :
    ((handle_media 800 listeningAtBoundary (List.replicate 481 255)
        (4 / 5)).dispatched.isSome = true)
    ∧ ¬ specStrictDispatch 800 listeningAtBoundary (List.replicate 481 255)
        (4 / 5) := by
  have hsil : is_silence (List.replicate 481 (255 : Nat)) = true := by
    norm_num [is_silence, byteEnergy, List.map_replicate, List.sum_replicate]
  constructor
  · have hne : (List.replicate 481 (255 : Nat)).isEmpty = false := by simp
    have hq : ((800 : Int) : ℚ) ≤ ((4 / 5 : ℚ) - 0) * 1000 := by norm_num
    have hlen : MIN_AUDIO_BYTES
        < (([] : List Nat) ++ List.replicate 481 255).length := by
      simp [MIN_AUDIO_BYTES]
    simp only [handle_media, listeningAtBoundary, hne, Bool.false_eq_true,
      if_false, hsil, Bool.true_eq_false, hq, hlen, and_true, true_and,
      if_true, Option.isSome_some]
  · rintro ⟨-, -, ⟨t0, ht0, hlt⟩, -⟩
    have ht0e : t0 = 0 := by
      simpa [listeningAtBoundary] using ht0.symm
    subst ht0e
    norm_num at hlt

/-- Chunk count of the slicing loop: `⌈N / C⌉` chunks, written as
`(N + C - 1) / C` with `C = cm1 + 1`. -/
theorem chunkGo_length (cm1 pad : Nat) :
    ∀ (fuel : Nat) (audio : List Nat), audio.length ≤ fuel →
      (chunkGo cm1 pad fuel audio).length
        = (audio.length + cm1) / (cm1 + 1) := by
  intro fuel
  induction fuel with
  | zero =>
    intro audio h
    have haudio : audio = [] := List.eq_nil_of_length_eq_zero (by omega)
    subst haudio
    simp only [chunkGo, List.length_nil, Nat.zero_add]
    exact (Nat.div_eq_of_lt (by omega)).symm
  | succ fuel ih =>
    intro audio h
    cases audio with
    | nil =>
      simp only [chunkGo, List.length_nil, Nat.zero_add]
      exact (Nat.div_eq_of_lt (by omega)).symm
    | cons a rest =>
      rw [chunkGo]
      by_cases hc : cm1 + 1 ≤ (a :: rest).length
      · rw [if_pos hc]
        have hdrop : ((a :: rest).drop (cm1 + 1)).length ≤ fuel := by
          rw [List.length_drop]
          omega
        rw [List.length_cons, ih _ hdrop, List.length_drop]
        rw [show (a :: rest).length + cm1
            = ((a :: rest).length - (cm1 + 1) + cm1) + (cm1 + 1) from by omega]
        rw [Nat.add_div_right _ (by omega)]
      · rw [if_neg hc]
        have hlen1 : (a :: rest).length = rest.length + 1 := by simp
        rw [List.length_singleton]
        symm
        exact Nat.div_eq_of_lt_le (by omega) (by omega)

/-- Every chunk the slicing loop produces has exactly the chunk size. -/
theorem chunkGo_mem_length (cm1 pad : Nat) :
    ∀ (fuel : Nat) (audio : List Nat), audio.length ≤ fuel →
      ∀ ch ∈ chunkGo cm1 pad fuel audio, ch.length = cm1 + 1 := by
  intro fuel
  induction fuel with
  | zero =>
    intro audio h
    have haudio : audio = [] := List.eq_nil_of_length_eq_zero (by omega)
    subst haudio
    simp [chunkGo]
  | succ fuel ih =>
    intro audio h ch hch
    cases audio with
    | nil => simp [chunkGo] at hch
    | cons a rest =>
      rw [chunkGo] at hch
      by_cases hc : cm1 + 1 ≤ (a :: rest).length
      · rw [if_pos hc] at hch
        simp only [List.mem_cons] at hch
        rcases hch with hch | hch
        · rw [hch, List.length_take]
          omega
        · have hdrop : ((a :: rest).drop (cm1 + 1)).length ≤ fuel := by
            rw [List.length_drop]
            omega
          exact ih _ hdrop ch hch
      · rw [if_neg hc] at hch
        simp only [List.mem_singleton] at hch
        rw [hch]
        rw [List.length_append, List.length_replicate]
        omega

/-- The slicing loop returns at least one chunk on non-empty input. -/
theorem chunkGo_ne_nil (cm1 pad : Nat) :
    ∀ (fuel : Nat) (audio : List Nat), audio ≠ [] → audio.length ≤ fuel →
      chunkGo cm1 pad fuel audio ≠ [] := by
  intro fuel audio hne h
  cases audio with
  | nil => exact absurd rfl hne
  | cons a rest =>
    cases fuel with
    | zero =>
      have hlen1 : (a :: rest).length = rest.length + 1 := by simp
      omega
    | succ fuel =>
      rw [chunkGo]
      by_cases hc : cm1 + 1 ≤ (a :: rest).length
      · rw [if_pos hc]
        simp
      · rw [if_neg hc]
        simp

/-- When the input length is not a multiple of the chunk size, the last
chunk is the final `N % C` bytes of the input padded to `C` with the
pad byte. -/
theorem chunkGo_getLast (cm1 pad : Nat) :
    ∀ (fuel : Nat) (audio : List Nat), audio.length ≤ fuel →
      audio.length % (cm1 + 1) ≠ 0 →
      (chunkGo cm1 pad fuel audio).getLast?
        = some (audio.drop (audio.length - audio.length % (cm1 + 1))
            ++ List.replicate ((cm1 + 1) - audio.length % (cm1 + 1)) pad) := by
  intro fuel
  induction fuel with
  | zero =>
    intro audio h hmod
    have haudio : audio = [] := List.eq_nil_of_length_eq_zero (by omega)
    subst haudio
    simp at hmod
  | succ fuel ih =>
    intro audio h hmod
    cases audio with
    | nil => simp at hmod
    | cons a rest =>
      rw [chunkGo]
      by_cases hc : cm1 + 1 ≤ (a :: rest).length
      · rw [if_pos hc]
        have hgt : cm1 + 1 < (a :: rest).length := by
          rcases Nat.lt_or_ge (cm1 + 1) (a :: rest).length with hlt | hge
          · exact hlt
          · have heq : (a :: rest).length = cm1 + 1 := le_antisymm hge hc
            rw [heq, Nat.mod_self] at hmod
            exact absurd rfl hmod
        have hdroplen : ((a :: rest).drop (cm1 + 1)).length ≤ fuel := by
          rw [List.length_drop]
          omega
        have hdropne : (a :: rest).drop (cm1 + 1) ≠ [] := by
          intro hnil
          have hlen := congrArg List.length hnil
          rw [List.length_drop, List.length_nil] at hlen
          omega
        have hmod2 : ((a :: rest).drop (cm1 + 1)).length % (cm1 + 1) ≠ 0 := by
          rw [List.length_drop, ← Nat.mod_eq_sub_mod hc]
          exact hmod
        have htail := ih _ hdroplen hmod2
        have hne2 := chunkGo_ne_nil cm1 pad fuel _ hdropne hdroplen
        obtain ⟨y, ys, hys⟩ := List.exists_cons_of_ne_nil hne2
        rw [hys] at htail ⊢
        rw [List.getLast?_cons_cons, htail]
        rw [List.drop_drop, List.length_drop, ← Nat.mod_eq_sub_mod hc]
        have hmodle : (a :: rest).length % (cm1 + 1) + (cm1 + 1)
            ≤ (a :: rest).length := by
          have hx := Nat.mod_add_div (a :: rest).length (cm1 + 1)
          have hdivpos : 1 ≤ (a :: rest).length / (cm1 + 1) :=
            (Nat.one_le_div_iff (by omega)).mpr hc
          have hy : cm1 + 1 ≤ (cm1 + 1) * ((a :: rest).length / (cm1 + 1)) :=
            Nat.le_mul_of_pos_right _ hdivpos
          omega
        rw [show cm1 + 1 + ((a :: rest).length - (cm1 + 1)
              - (a :: rest).length % (cm1 + 1))
            = (a :: rest).length - (a :: rest).length % (cm1 + 1) from by
          omega]
      · rw [if_neg hc]
        have hlt : (a :: rest).length < cm1 + 1 := by omega
        rw [Nat.mod_eq_of_lt hlt]
        simp only [List.getLast?_singleton, Nat.sub_self, List.drop_zero]

/-- `chunk_audio` in terms of the slicing loop when the chunk size is
positive. -/
theorem chunk_audio_eq (audio : List Nat)
    (chunkMs sampleRate sampleWidth : Nat)
    (h : 0 < sampleRate * sampleWidth * chunkMs / 1000) :
    chunk_audio audio chunkMs sampleRate sampleWidth
      = chunkGo (sampleRate * sampleWidth * chunkMs / 1000 - 1)
          (if sampleWidth = 1 then 0xFF else 0x00) audio.length audio := by
  unfold chunk_audio
  cases hc : sampleRate * sampleWidth * chunkMs / 1000 with
  | zero => omega
  | succ k => simp

/-- At the Twilio parameters (20 ms, 8 kHz, 1 byte/sample) every chunk
is exactly 160 bytes. -/
theorem chunk_audio_160 (audio : List Nat) :
    ∀ ch ∈ chunk_audio audio 20 8000 1, ch.length = 160 := by
  intro ch hch
  rw [chunk_audio_eq audio 20 8000 1 (by norm_num)] at hch
  have h160 := chunkGo_mem_length (8000 * 1 * 20 / 1000 - 1)
    (if (1 : Nat) = 1 then 0xFF else 0x00) audio.length audio le_rfl ch hch
  norm_num at h160
  exact h160

/-- `Except.bind` applied to a failure. -/
theorem exbind_error {ε α β : Type} (x : ε) (f : α → Except ε β) :
    (Bind.bind (Except.error x : Except ε α) f) = .error x := rfl

/-- A cancelled `aw` appends exactly the cancellation marker. -/
theorem aw_error {e : PipelineEnv} {rs rs2 : RS}
    (h : aw e rs = .error rs2) :
    rs2.trace = rs.trace ++ [Ev.cancelObserved] := by
  unfold aw at h
  by_cases hc : e.cancelAt = some rs.tick
  · rw [if_pos hc] at h
    cases h
    rfl
  · rw [if_neg hc] at h
    cases h

/-- A successful `aw` leaves the trace unchanged. -/
theorem aw_ok {e : PipelineEnv} {rs rs2 : RS} (h : aw e rs = .ok rs2) :
    rs2.trace = rs.trace := by
  unfold aw at h
  by_cases hc : e.cancelAt = some rs.tick
  · rw [if_pos hc] at h
    cases h
  · rw [if_neg hc] at h
    cases h
    rfl

/-- Shape of any `sendChunks` outcome: success preserves the history
filters; a cancelled run preserves them too and its trace ends at the
cancellation marker; and every media frame it adds is one of the given
chunks. -/
theorem sendChunks_shape (e : PipelineEnv) (intr : Nat → Bool) :
    ∀ (chunks : List (List Nat)) (k : Nat) (rs : RS),
      (∀ rs2, sendChunks e intr chunks k rs = .ok rs2 →
        assistantAppends rs2.trace = assistantAppends rs.trace)
      ∧ (∀ rs2, sendChunks e intr chunks k rs = .error rs2 →
        assistantAppends rs2.trace = assistantAppends rs.trace
          ∧ ∃ p, rs2.trace = p ++ [Ev.cancelObserved])
      ∧ (∀ rs2, (sendChunks e intr chunks k rs = .ok rs2
            ∨ sendChunks e intr chunks k rs = .error rs2) →
        ∀ n, Ev.mediaOut n ∈ rs2.trace →
          Ev.mediaOut n ∈ rs.trace ∨ ∃ c ∈ chunks, c.length = n) := by
  intro chunks
  induction chunks with
  | nil =>
    intro k rs
    refine ⟨?_, ?_, ?_⟩
    · intro rs2 h2
      cases h2
      rfl
    · intro rs2 h2
      cases h2
    · intro rs2 h2 n hm
      rcases h2 with h2 | h2
      · cases h2
        exact .inl hm
      · cases h2
  | cons c cs ih =>
    intro k rs
    by_cases hik : intr k
    · have hsend : sendChunks e intr (c :: cs) k rs = .ok rs := by
        simp [sendChunks, hik]
      refine ⟨?_, ?_, ?_⟩
      · intro rs2 h2
        rw [hsend] at h2
        cases h2
        rfl
      · intro rs2 h2
        rw [hsend] at h2
        cases h2
      · intro rs2 h2 n hm
        rw [hsend] at h2
        rcases h2 with h2 | h2
        · cases h2
          exact .inl hm
        · cases h2
    · cases haw : aw e rs with
      | error E =>
        have hsend : sendChunks e intr (c :: cs) k rs = .error E := by
          simp only [sendChunks, hik, Bool.false_eq_true, if_false]
          rw [haw]
          exact exbind_error ..
        have hE := aw_error haw
        refine ⟨?_, ?_, ?_⟩
        · intro rs2 h2
          rw [hsend] at h2
          cases h2
        · intro rs2 h2
          rw [hsend] at h2
          cases h2
          refine ⟨?_, rs.trace, hE⟩
          rw [hE]
          simp
        · intro rs2 h2 n hm
          rw [hsend] at h2
          rcases h2 with h2 | h2
          · cases h2
          · cases h2
            rw [hE] at hm
            rcases List.mem_append.mp hm with hm | hm
            · exact .inl hm
            · simp at hm
      | ok O =>
        have hsend : sendChunks e intr (c :: cs) k rs
            = sendChunks e intr cs (k + 1) (emit O (Ev.mediaOut c.length)) := by
          simp only [sendChunks, hik, Bool.false_eq_true, if_false]
          rw [haw]
          exact exbind_ok ..
        have hO := aw_ok haw
        obtain ⟨ihOk, ihErr, ihMed⟩ := ih (k + 1) (emit O (Ev.mediaOut c.length))
        refine ⟨?_, ?_, ?_⟩
        · intro rs2 h2
          rw [hsend] at h2
          rw [ihOk rs2 h2]
          simp [hO]
        · intro rs2 h2
          rw [hsend] at h2
          obtain ⟨ha, hp⟩ := ihErr rs2 h2
          refine ⟨?_, hp⟩
          rw [ha]
          simp [hO]
        · intro rs2 h2 n hm
          rw [hsend] at h2
          rcases ihMed rs2 h2 n hm with hin | ⟨cx, hcx, hlen⟩
          · rw [emit_trace, hO] at hin
            rcases List.mem_append.mp hin with hin | hin
            · exact .inl hin
            · simp only [List.mem_singleton, Ev.mediaOut.injEq] at hin
              exact .inr ⟨c, List.mem_cons_self .., hin.symm⟩
          · exact .inr ⟨cx, List.mem_cons_of_mem _ hcx, hlen⟩

/-- Shape of any `speak` outcome: no history appends on success, none
either on cancellation (whose trace ends at the marker), and every
media frame added is a 160-byte Twilio chunk. -/
theorem speak_shape (e : PipelineEnv) (text : String) (rs : RS) :
    (∀ rs2, speak e text rs = .ok rs2 →
      assistantAppends rs2.trace = assistantAppends rs.trace)
    ∧ (∀ rs2, speak e text rs = .error rs2 →
      assistantAppends rs2.trace = assistantAppends rs.trace
        ∧ ∃ p, rs2.trace = p ++ [Ev.cancelObserved])
    ∧ (∀ rs2, (speak e text rs = .ok rs2 ∨ speak e text rs = .error rs2) →
      ∀ n, Ev.mediaOut n ∈ rs2.trace → Ev.mediaOut n ∈ rs.trace ∨ n = 160) := by
  by_cases he : (pyStrip text).isEmpty
  · have hsp : speak e text rs = .ok rs := by simp [speak, he]
    refine ⟨?_, ?_, ?_⟩
    · intro rs2 h2
      rw [hsp] at h2
      cases h2
      rfl
    · intro rs2 h2
      rw [hsp] at h2
      cases h2
    · intro rs2 h2 n hm
      rw [hsp] at h2
      rcases h2 with h2 | h2
      · cases h2
        exact .inl hm
      · cases h2
  · have hstart : (emit { rs with state := AgentState.speaking }
        (Ev.ttsSynth text)).trace = rs.trace ++ [Ev.ttsSynth text] := rfl
    cases haw : aw e (emit { rs with state := AgentState.speaking }
        (Ev.ttsSynth text)) with
    | error E =>
      have hsp : speak e text rs = .error E := by
        simp only [speak, he, Bool.false_eq_true, if_false]
        rw [haw]
        exact exbind_error ..
      have hE := aw_error haw
      rw [hstart] at hE
      refine ⟨?_, ?_, ?_⟩
      · intro rs2 h2
        rw [hsp] at h2
        cases h2
      · intro rs2 h2
        rw [hsp] at h2
        cases h2
        refine ⟨?_, rs.trace ++ [Ev.ttsSynth text], by rw [hE]⟩
        rw [hE]
        simp
      · intro rs2 h2 n hm
        rw [hsp] at h2
        rcases h2 with h2 | h2
        · cases h2
        · cases h2
          rw [hE] at hm
          simp only [List.append_assoc, List.mem_append,
            List.mem_singleton] at hm
          rcases hm with hm | hm | hm
          · exact .inl hm
          all_goals simp_all
    | ok O =>
      have hO := aw_ok haw
      rw [hstart] at hO
      by_cases hpre : e.intrSpeakPre
      · have hsp : speak e text rs = .ok O := by
          simp only [speak, he, Bool.false_eq_true, if_false]
          rw [haw]
          rw [exbind_ok]
          simp [hpre]
        refine ⟨?_, ?_, ?_⟩
        · intro rs2 h2
          rw [hsp] at h2
          cases h2
          rw [hO]
          simp
        · intro rs2 h2
          rw [hsp] at h2
          cases h2
        · intro rs2 h2 n hm
          rw [hsp] at h2
          rcases h2 with h2 | h2
          · cases h2
            rw [hO] at hm
            rcases List.mem_append.mp hm with hm | hm
            · exact .inl hm
            · simp at hm
          · cases h2
      · obtain ⟨scOk, scErr, scMed⟩ := sendChunks_shape e e.intrSpeakChunk
          (chunk_audio (e.ttsMulaw text) 20 8000 1) 0 O
        have h160 := chunk_audio_160 (e.ttsMulaw text)
        cases hsc : sendChunks e e.intrSpeakChunk
            (chunk_audio (e.ttsMulaw text) 20 8000 1) 0 O with
        | error F =>
          have hsp : speak e text rs = .error F := by
            simp only [speak, he, Bool.false_eq_true, if_false]
            rw [haw]
            rw [exbind_ok]
            simp only [hpre, Bool.false_eq_true, if_false]
            rw [hsc]
            exact exbind_error ..
          obtain ⟨haF, pF, hpF⟩ := scErr F hsc
          refine ⟨?_, ?_, ?_⟩
          · intro rs2 h2
            rw [hsp] at h2
            cases h2
          · intro rs2 h2
            rw [hsp] at h2
            cases h2
            refine ⟨?_, pF, hpF⟩
            rw [haF, hO]
            simp
          · intro rs2 h2 n hm
            rw [hsp] at h2
            rcases h2 with h2 | h2
            · cases h2
            · cases h2
              rcases scMed F (.inr hsc) n hm with hin | ⟨cx, hcx, hlen⟩
              · rw [hO] at hin
                rcases List.mem_append.mp hin with hin | hin
                · exact .inl hin
                · simp at hin
              · exact .inr (hlen ▸ h160 cx hcx)
        | ok F =>
          have haF := scOk F hsc
          have hmedF := scMed F (.inl hsc)
          by_cases hpost : e.intrSpeakPost
          · have hsp : speak e text rs = .ok F := by
              simp only [speak, he, Bool.false_eq_true, if_false]
              rw [haw]
              rw [exbind_ok]
              simp only [hpre, Bool.false_eq_true, if_false]
              rw [hsc]
              rw [exbind_ok]
              simp [hpost]
            refine ⟨?_, ?_, ?_⟩
            · intro rs2 h2
              rw [hsp] at h2
              cases h2
              rw [haF, hO]
              simp
            · intro rs2 h2
              rw [hsp] at h2
              cases h2
            · intro rs2 h2 n hm
              rw [hsp] at h2
              rcases h2 with h2 | h2
              · cases h2
                rcases hmedF n hm with hin | ⟨cx, hcx, hlen⟩
                · rw [hO] at hin
                  rcases List.mem_append.mp hin with hin | hin
                  · exact .inl hin
                  · simp at hin
                · exact .inr (hlen ▸ h160 cx hcx)
              · cases h2
          · cases haw2 : aw e { F with markCounter := F.markCounter + 1 } with
            | error G =>
              have hsp : speak e text rs = .error G := by
                simp only [speak, he, Bool.false_eq_true, if_false]
                rw [haw]
                rw [exbind_ok]
                simp only [hpre, Bool.false_eq_true, if_false]
                rw [hsc]
                rw [exbind_ok]
                simp only [hpost, Bool.false_eq_true, if_false]
                rw [haw2]
                exact exbind_error ..
              have hG := aw_error haw2
              refine ⟨?_, ?_, ?_⟩
              · intro rs2 h2
                rw [hsp] at h2
                cases h2
              · intro rs2 h2
                rw [hsp] at h2
                cases h2
                constructor
                · rw [hG]
                  show assistantAppends (F.trace ++ _) = _
                  rw [assistantAppends_append, haF, hO]
                  simp
                · exact ⟨F.trace, hG⟩
              · intro rs2 h2 n hm
                rw [hsp] at h2
                rcases h2 with h2 | h2
                · cases h2
                · cases h2
                  rw [hG] at hm
                  rcases List.mem_append.mp hm with hm | hm
                  · rcases hmedF n hm with hin | ⟨cx, hcx, hlen⟩
                    · rw [hO] at hin
                      rcases List.mem_append.mp hin with hin | hin
                      · exact .inl hin
                      · simp at hin
                    · exact .inr (hlen ▸ h160 cx hcx)
                  · simp at hm
            | ok G =>
              have hG := aw_ok haw2
              have hsp : speak e text rs
                  = .ok (emit G (Ev.markOut
                      ("utt_" ++ toString G.markCounter))) := by
                simp only [speak, he, Bool.false_eq_true, if_false]
                rw [haw]
                rw [exbind_ok]
                simp only [hpre, Bool.false_eq_true, if_false]
                rw [hsc]
                rw [exbind_ok]
                simp only [hpost, Bool.false_eq_true, if_false]
                rw [haw2]
                exact exbind_ok ..
              refine ⟨?_, ?_, ?_⟩
              · intro rs2 h2
                rw [hsp] at h2
                cases h2
                rw [emit_trace, assistantAppends_append, hG]
                show assistantAppends F.trace ++ _ = _
                rw [haF, hO]
                simp
              · intro rs2 h2
                rw [hsp] at h2
                cases h2
              · intro rs2 h2 n hm
                rw [hsp] at h2
                rcases h2 with h2 | h2
                · cases h2
                  rw [emit_trace, hG] at hm
                  rcases List.mem_append.mp hm with hm | hm
                  · rcases hmedF n hm with hin | ⟨cx, hcx, hlen⟩
                    · rw [hO] at hin
                      rcases List.mem_append.mp hin with hin | hin
                      · exact .inl hin
                      · simp at hin
                    · exact .inr (hlen ▸ h160 cx hcx)
                  · simp at hm
                · cases h2

/-- Shape of any `playFiller` outcome, as for `speak`. -/
theorem playFiller_shape (e : PipelineEnv) (rs : RS) :
    (∀ rs2, playFiller e rs = .ok rs2 →
      assistantAppends rs2.trace = assistantAppends rs.trace)
    ∧ (∀ rs2, playFiller e rs = .error rs2 →
      assistantAppends rs2.trace = assistantAppends rs.trace
        ∧ ∃ p, rs2.trace = p ++ [Ev.cancelObserved])
    ∧ (∀ rs2, (playFiller e rs = .ok rs2 ∨ playFiller e rs = .error rs2) →
      ∀ n, Ev.mediaOut n ∈ rs2.trace →
        Ev.mediaOut n ∈ rs.trace ∨ n = 160) := by
  cases hf : e.fillerMulaw with
  | none =>
    have hpf : playFiller e rs = .ok rs := by simp [playFiller, hf]
    refine ⟨?_, ?_, ?_⟩
    · intro rs2 h2
      rw [hpf] at h2
      cases h2
      rfl
    · intro rs2 h2
      rw [hpf] at h2
      cases h2
    · intro rs2 h2 n hm
      rw [hpf] at h2
      rcases h2 with h2 | h2
      · cases h2
        exact .inl hm
      · cases h2
  | some audio =>
    have hpf : playFiller e rs
        = sendChunks e e.intrFillerChunk (chunk_audio audio 20 8000 1) 0 rs := by
      simp [playFiller, hf]
    obtain ⟨scOk, scErr, scMed⟩ := sendChunks_shape e e.intrFillerChunk
      (chunk_audio audio 20 8000 1) 0 rs
    have h160 := chunk_audio_160 audio
    refine ⟨?_, ?_, ?_⟩
    · intro rs2 h2
      rw [hpf] at h2
      exact scOk rs2 h2
    · intro rs2 h2
      rw [hpf] at h2
      exact scErr rs2 h2
    · intro rs2 h2 n hm
      rw [hpf] at h2
      rcases scMed rs2 h2 n hm with hin | ⟨cx, hcx, hlen⟩
      · exact .inl hin
      · exact .inr (hlen ▸ h160 cx hcx)

/-- Shape of any `llmConsume` outcome: it emits nothing on success, and
a cancelled run adds only the cancellation marker. -/
theorem llmConsume_shape (e : PipelineEnv) :
    ∀ (sentences : List String) (k : Nat) (acc : String) (rs : RS),
      (∀ r, llmConsume e sentences k acc rs = .ok r →
        r.2.2.trace = rs.trace)
      ∧ (∀ rs2, llmConsume e sentences k acc rs = .error rs2 →
        assistantAppends rs2.trace = assistantAppends rs.trace
          ∧ (∀ n, Ev.mediaOut n ∈ rs2.trace → Ev.mediaOut n ∈ rs.trace)
          ∧ ∃ p, rs2.trace = p ++ [Ev.cancelObserved]) := by
  intro sentences
  induction sentences with
  | nil =>
    intro k acc rs
    refine ⟨?_, ?_⟩
    · intro r h2
      cases h2
      rfl
    · intro rs2 h2
      cases h2
  | cons s rest ih =>
    intro k acc rs
    cases haw : aw e rs with
    | error E =>
      have hlc : llmConsume e (s :: rest) k acc rs = .error E := by
        simp only [llmConsume]
        rw [haw]
        exact exbind_error ..
      have hE := aw_error haw
      refine ⟨?_, ?_⟩
      · intro r h2
        rw [hlc] at h2
        cases h2
      · intro rs2 h2
        rw [hlc] at h2
        cases h2
        refine ⟨by rw [hE]; simp, ?_, rs.trace, hE⟩
        intro n hm
        rw [hE] at hm
        rcases List.mem_append.mp hm with hm | hm
        · exact hm
        · simp at hm
    | ok O =>
      have hO := aw_ok haw
      by_cases hik : e.intrLLM k
      · have hlc : llmConsume e (s :: rest) k acc rs = .ok (acc, true, O) := by
          simp only [llmConsume]
          rw [haw]
          rw [exbind_ok]
          simp [hik]
        refine ⟨?_, ?_⟩
        · intro r h2
          rw [hlc] at h2
          cases h2
          exact hO
        · intro rs2 h2
          rw [hlc] at h2
          cases h2
      · have hlc : llmConsume e (s :: rest) k acc rs
            = llmConsume e rest (k + 1) (acc ++ s ++ " ") O := by
          simp only [llmConsume]
          rw [haw]
          rw [exbind_ok]
          simp [hik]
        obtain ⟨ihOk, ihErr⟩ := ih (k + 1) (acc ++ s ++ " ") O
        refine ⟨?_, ?_⟩
        · intro r h2
          rw [hlc] at h2
          rw [ihOk r h2, hO]
        · intro rs2 h2
          rw [hlc] at h2
          obtain ⟨ha, hmed, hp⟩ := ihErr rs2 h2
          refine ⟨by rw [ha, hO], ?_, hp⟩
          intro n hm
          have := hmed n hm
          rw [hO] at this
          exact this

/-- Shape of a cancelled `step67` run: no assistant append, trace ends
at the cancellation marker; and every media frame any outcome adds is a
160-byte chunk. -/
theorem step67_shape (e : PipelineEnv) (full : String) (rs : RS) :
    (∀ rs2, step67 e full rs = .error rs2 →
      assistantAppends rs2.trace = assistantAppends rs.trace
        ∧ ∃ p, rs2.trace = p ++ [Ev.cancelObserved])
    ∧ (∀ rs2, (step67 e full rs = .ok rs2 ∨ step67 e full rs = .error rs2) →
      ∀ n, Ev.mediaOut n ∈ rs2.trace →
        Ev.mediaOut n ∈ rs.trace ∨ n = 160) := by
  by_cases hgo : !(pyStrip full).isEmpty && !e.intrStep6
  · cases haw : aw e rs with
    | error E =>
      have hst : step67 e full rs = .error E := by
        simp only [step67, hgo, if_true]
        rw [haw]
        exact exbind_error ..
      have hE := aw_error haw
      refine ⟨?_, ?_⟩
      · intro rs2 h2
        rw [hst] at h2
        cases h2
        refine ⟨by rw [hE]; simp, rs.trace, hE⟩
      · intro rs2 h2 n hm
        rw [hst] at h2
        rcases h2 with h2 | h2
        · cases h2
        · cases h2
          rw [hE] at hm
          rcases List.mem_append.mp hm with hm | hm
          · exact .inl hm
          · simp at hm
    | ok O =>
      have hO := aw_ok haw
      obtain ⟨spOk, spErr, spMed⟩ := speak_shape e (pyStrip full)
        (emit O Ev.clearOut)
      cases hsp : speak e (pyStrip full) (emit O Ev.clearOut) with
      | error F =>
        have hst : step67 e full rs = .error F := by
          simp only [step67, hgo, if_true]
          rw [haw]
          rw [exbind_ok]
          rw [hsp]
          exact exbind_error ..
        obtain ⟨haF, pF, hpF⟩ := spErr F hsp
        refine ⟨?_, ?_⟩
        · intro rs2 h2
          rw [hst] at h2
          cases h2
          refine ⟨?_, pF, hpF⟩
          rw [haF, emit_trace, assistantAppends_append, hO]
          simp
        · intro rs2 h2 n hm
          rw [hst] at h2
          rcases h2 with h2 | h2
          · cases h2
          · cases h2
            rcases spMed F (.inr hsp) n hm with hin | h160
            · rw [emit_trace, hO] at hin
              rcases List.mem_append.mp hin with hin | hin
              · exact .inl hin
              · simp at hin
            · exact .inr h160
      | ok F =>
        have hstep : ∀ rs2, step67 e full rs = .ok rs2 →
            ∀ n, Ev.mediaOut n ∈ rs2.trace →
              Ev.mediaOut n ∈ F.trace := by
          intro rs2 h2 n hm
          simp only [step67, hgo, if_true] at h2
          rw [haw] at h2
          rw [exbind_ok] at h2
          rw [hsp] at h2
          rw [exbind_ok] at h2
          by_cases he : (pyStrip full).isEmpty
          · rw [if_pos he] at h2
            cases h2
            exact hm
          · rw [if_neg he] at h2
            cases h2
            rw [emit_trace] at hm
            rcases List.mem_append.mp hm with hm | hm
            · exact hm
            · simp at hm
        have hsterr : ∀ rs2, step67 e full rs ≠ .error rs2 := by
          intro rs2 h2
          simp only [step67, hgo, if_true] at h2
          rw [haw] at h2
          rw [exbind_ok] at h2
          rw [hsp] at h2
          rw [exbind_ok] at h2
          by_cases he : (pyStrip full).isEmpty
          · rw [if_pos he] at h2
            cases h2
          · rw [if_neg he] at h2
            cases h2
        refine ⟨?_, ?_⟩
        · intro rs2 h2
          exact absurd h2 (hsterr rs2)
        · intro rs2 h2 n hm
          rcases h2 with h2 | h2
          · have hin := hstep rs2 h2 n hm
            rcases spMed F (.inl hsp) n hin with hin2 | h160
            · rw [emit_trace, hO] at hin2
              rcases List.mem_append.mp hin2 with hin2 | hin2
              · exact .inl hin2
              · simp at hin2
            · exact .inr h160
          · exact absurd h2 (hsterr rs2)
  · have hst : ∀ rs2, (step67 e full rs = .ok rs2 → rs2.trace = rs.trace
        ∨ rs2.trace = rs.trace ++ [Ev.assistantAppend (pyStrip full)])
        ∧ (step67 e full rs ≠ .error rs2) := by
      intro rs2
      constructor
      · intro h2
        simp only [step67, hgo, if_false] at h2
        rw [exbind_ok] at h2
        by_cases he : (pyStrip full).isEmpty
        · rw [if_pos he] at h2
          cases h2
          exact .inl rfl
        · rw [if_neg he] at h2
          cases h2
          exact .inr rfl
      · intro h2
        simp only [step67, hgo, if_false] at h2
        rw [exbind_ok] at h2
        by_cases he : (pyStrip full).isEmpty
        · rw [if_pos he] at h2
          cases h2
        · rw [if_neg he] at h2
          cases h2
    refine ⟨?_, ?_⟩
    · intro rs2 h2
      exact absurd h2 ((hst rs2).2)
    · intro rs2 h2 n hm
      rcases h2 with h2 | h2
      · rcases (hst rs2).1 h2 with ht | ht
        · rw [ht] at hm
          exact .inl hm
        · rw [ht] at hm
          rcases List.mem_append.mp hm with hm | hm
          · exact .inl hm
          · simp at hm
      · exact absurd h2 ((hst rs2).2)

/-- Shape of the pipeline tail: a cancelled run appends no assistant
message and its trace ends at the cancellation marker; every media
frame any outcome adds is a 160-byte chunk. -/
theorem pipelineTail_shape (e : PipelineEnv) (tr : String) (rs : RS) :
    (∀ rs2, pipelineTail e tr rs = .error rs2 →
      assistantAppends rs2.trace = assistantAppends rs.trace
        ∧ ∃ p, rs2.trace = p ++ [Ev.cancelObserved])
    ∧ (∀ rs2, (pipelineTail e tr rs = .ok rs2
          ∨ pipelineTail e tr rs = .error rs2) →
      ∀ n, Ev.mediaOut n ∈ rs2.trace →
        Ev.mediaOut n ∈ rs.trace ∨ n = 160) := by
  obtain ⟨lcOk, lcErr⟩ := llmConsume_shape e e.llmSentences 0 ""
    (emit rs (Ev.userAppend tr))
  cases hlc : llmConsume e e.llmSentences 0 "" (emit rs (Ev.userAppend tr)) with
  | error E =>
    have hpt : pipelineTail e tr rs = .error E := by
      unfold pipelineTail
      dsimp only
      rw [hlc]
      exact exbind_error ..
    obtain ⟨haE, hmedE, pE, hpE⟩ := lcErr E hlc
    refine ⟨?_, ?_⟩
    · intro rs2 h2
      rw [hpt] at h2
      cases h2
      refine ⟨?_, pE, hpE⟩
      rw [haE, emit_trace]
      simp
    · intro rs2 h2 n hm
      rw [hpt] at h2
      rcases h2 with h2 | h2
      · cases h2
      · cases h2
        have := hmedE n hm
        rw [emit_trace] at this
        rcases List.mem_append.mp this with hin | hin
        · exact .inl hin
        · simp at hin
  | ok r =>
    obtain ⟨full, broke, rsL⟩ := r
    have hL : rsL.trace = rs.trace ++ [Ev.userAppend tr] := by
      have := lcOk (full, broke, rsL) hlc
      rw [emit_trace] at this
      exact this
    have haL : assistantAppends rsL.trace = assistantAppends rs.trace := by
      rw [hL]
      simp
    cases broke with
    | true =>
      have hpt : pipelineTail e tr rs = step67 e full rsL := by
        unfold pipelineTail
        dsimp only
        rw [hlc]
        rw [exbind_ok]
      obtain ⟨stErr, stMed⟩ := step67_shape e full rsL
      refine ⟨?_, ?_⟩
      · intro rs2 h2
        rw [hpt] at h2
        obtain ⟨ha, hp⟩ := stErr rs2 h2
        exact ⟨by rw [ha, haL], hp⟩
      · intro rs2 h2 n hm
        rw [hpt] at h2
        rcases stMed rs2 h2 n hm with hin | h160
        · rw [hL] at hin
          rcases List.mem_append.mp hin with hin | hin
          · exact .inl hin
          · simp at hin
        · exact .inr h160
    | false =>
      cases haw : aw e rsL with
      | error E2 =>
        have hpt : pipelineTail e tr rs = .error E2 := by
          unfold pipelineTail
          dsimp only
          rw [hlc]
          rw [exbind_ok]
          dsimp only
          rw [haw]
          exact exbind_error ..
        have hE2 := aw_error haw
        refine ⟨?_, ?_⟩
        · intro rs2 h2
          rw [hpt] at h2
          cases h2
          refine ⟨?_, rsL.trace, hE2⟩
          rw [hE2, assistantAppends_append, haL]
          simp
        · intro rs2 h2 n hm
          rw [hpt] at h2
          rcases h2 with h2 | h2
          · cases h2
          · cases h2
            rw [hE2] at hm
            rcases List.mem_append.mp hm with hm | hm
            · rw [hL] at hm
              rcases List.mem_append.mp hm with hm | hm
              · exact .inl hm
              · simp at hm
            · simp at hm
      | ok O2 =>
        have hO2 := aw_ok haw
        by_cases hlr : e.llmRaises
        · have hpt : pipelineTail e tr rs
              = speak e "Afsakið, augnablik." O2 := by
            unfold pipelineTail
            dsimp only
            rw [hlc]
            rw [exbind_ok]
            dsimp only
            rw [haw]
            rw [exbind_ok]
            simp [hlr]
          obtain ⟨spOk, spErr, spMed⟩ := speak_shape e "Afsakið, augnablik." O2
          refine ⟨?_, ?_⟩
          · intro rs2 h2
            rw [hpt] at h2
            obtain ⟨ha, hp⟩ := spErr rs2 h2
            refine ⟨?_, hp⟩
            rw [ha, hO2, haL]
          · intro rs2 h2 n hm
            rw [hpt] at h2
            rcases spMed rs2 h2 n hm with hin | h160
            · rw [hO2, hL] at hin
              rcases List.mem_append.mp hin with hin | hin
              · exact .inl hin
              · simp at hin
            · exact .inr h160
        · have hpt : pipelineTail e tr rs = step67 e full O2 := by
            unfold pipelineTail
            dsimp only
            rw [hlc]
            rw [exbind_ok]
            dsimp only
            rw [haw]
            rw [exbind_ok]
            simp [hlr]
          obtain ⟨stErr, stMed⟩ := step67_shape e full O2
          refine ⟨?_, ?_⟩
          · intro rs2 h2
            rw [hpt] at h2
            obtain ⟨ha, hp⟩ := stErr rs2 h2
            refine ⟨?_, hp⟩
            rw [ha, hO2, haL]
          · intro rs2 h2 n hm
            rw [hpt] at h2
            rcases stMed rs2 h2 n hm with hin | h160
            · rw [hO2, hL] at hin
              rcases List.mem_append.mp hin with hin | hin
              · exact .inl hin
              · simp at hin
            · exact .inr h160

/-- Shape of the whole pipeline body: a cancelled run appends no
assistant message and its trace ends at the cancellation marker; every
media frame any outcome adds is a 160-byte chunk. -/
theorem pipelineBody_shape (e : PipelineEnv) (rs : RS) :
    (∀ rs2, pipelineBody e rs = .error rs2 →
      assistantAppends rs2.trace = assistantAppends rs.trace
        ∧ ∃ p, rs2.trace = p ++ [Ev.cancelObserved])
    ∧ (∀ rs2, (pipelineBody e rs = .ok rs2 ∨ pipelineBody e rs = .error rs2) →
      ∀ n, Ev.mediaOut n ∈ rs2.trace →
        Ev.mediaOut n ∈ rs.trace ∨ n = 160) := by
  cases haw : aw e (emit rs Ev.sttCall) with
  | error E =>
    have hpb : pipelineBody e rs = .error E := by
      unfold pipelineBody
      dsimp only
      rw [haw]
      exact exbind_error ..
    have hE := aw_error haw
    rw [emit_trace] at hE
    refine ⟨?_, ?_⟩
    · intro rs2 h2
      rw [hpb] at h2
      cases h2
      refine ⟨by rw [hE]; simp, rs.trace ++ [Ev.sttCall], by rw [hE]⟩
    · intro rs2 h2 n hm
      rw [hpb] at h2
      rcases h2 with h2 | h2
      · cases h2
      · cases h2
        rw [hE] at hm
        simp only [List.append_assoc, List.mem_append,
          List.mem_singleton] at hm
        rcases hm with hm | hm | hm
        · exact .inl hm
        all_goals simp_all
  | ok O =>
    have hO := aw_ok haw
    rw [emit_trace] at hO
    have haO : assistantAppends O.trace = assistantAppends rs.trace := by
      rw [hO]
      simp
    have hmedO : ∀ n, Ev.mediaOut n ∈ O.trace → Ev.mediaOut n ∈ rs.trace := by
      intro n hm
      rw [hO] at hm
      rcases List.mem_append.mp hm with hm | hm
      · exact hm
      · simp at hm
    cases hstt : e.sttResult with
    | error u =>
      have hpb : pipelineBody e rs
          = speak e "Afsakið, gætirðu endurtekið?" O := by
        unfold pipelineBody
        dsimp only
        rw [haw]
        rw [exbind_ok]
        rw [hstt]
      obtain ⟨spOk, spErr, spMed⟩ := speak_shape e
        "Afsakið, gætirðu endurtekið?" O
      refine ⟨?_, ?_⟩
      · intro rs2 h2
        rw [hpb] at h2
        obtain ⟨ha, hp⟩ := spErr rs2 h2
        exact ⟨by rw [ha, haO], hp⟩
      · intro rs2 h2 n hm
        rw [hpb] at h2
        rcases spMed rs2 h2 n hm with hin | h160
        · exact .inl (hmedO n hin)
        · exact .inr h160
    | ok t =>
      by_cases hne : (pyStrip t).isEmpty
      · have hpb : pipelineBody e rs
            = .ok { O with state := AgentState.listening } := by
          unfold pipelineBody
          dsimp only
          rw [haw]
          rw [exbind_ok]
          rw [hstt]
          dsimp only
          rw [if_pos hne]
        refine ⟨?_, ?_⟩
        · intro rs2 h2
          rw [hpb] at h2
          cases h2
        · intro rs2 h2 n hm
          rw [hpb] at h2
          rcases h2 with h2 | h2
          · cases h2
            exact .inl (hmedO n hm)
          · cases h2
      · by_cases hfp : e.intrFillerPre
        · have hpb : pipelineBody e rs = pipelineTail e (pyStrip t) O := by
            unfold pipelineBody
            dsimp only
            rw [haw]
            rw [exbind_ok]
            rw [hstt]
            dsimp only
            rw [if_neg hne]
            simp only [hfp, if_true]
            rw [exbind_ok]
          obtain ⟨ptErr, ptMed⟩ := pipelineTail_shape e (pyStrip t) O
          refine ⟨?_, ?_⟩
          · intro rs2 h2
            rw [hpb] at h2
            obtain ⟨ha, hp⟩ := ptErr rs2 h2
            exact ⟨by rw [ha, haO], hp⟩
          · intro rs2 h2 n hm
            rw [hpb] at h2
            rcases ptMed rs2 h2 n hm with hin | h160
            · exact .inl (hmedO n hin)
            · exact .inr h160
        · obtain ⟨pfOk, pfErr, pfMed⟩ := playFiller_shape e O
          cases hpf : playFiller e O with
          | error F =>
            have hpb : pipelineBody e rs = .error F := by
              unfold pipelineBody
              dsimp only
              rw [haw]
              rw [exbind_ok]
              rw [hstt]
              dsimp only
              rw [if_neg hne]
              simp only [hfp, Bool.false_eq_true, if_false]
              rw [hpf]
              exact exbind_error ..
            obtain ⟨haF, pF, hpF⟩ := pfErr F hpf
            refine ⟨?_, ?_⟩
            · intro rs2 h2
              rw [hpb] at h2
              cases h2
              exact ⟨by rw [haF, haO], pF, hpF⟩
            · intro rs2 h2 n hm
              rw [hpb] at h2
              rcases h2 with h2 | h2
              · cases h2
              · cases h2
                rcases pfMed F (.inr hpf) n hm with hin | h160
                · exact .inl (hmedO n hin)
                · exact .inr h160
          | ok F =>
            have hpb : pipelineBody e rs = pipelineTail e (pyStrip t) F := by
              unfold pipelineBody
              dsimp only
              rw [haw]
              rw [exbind_ok]
              rw [hstt]
              dsimp only
              rw [if_neg hne]
              simp only [hfp, Bool.false_eq_true, if_false]
              rw [hpf]
              rw [exbind_ok]
            have haF := pfOk F hpf
            obtain ⟨ptErr, ptMed⟩ := pipelineTail_shape e (pyStrip t) F
            refine ⟨?_, ?_⟩
            · intro rs2 h2
              rw [hpb] at h2
              obtain ⟨ha, hp⟩ := ptErr rs2 h2
              exact ⟨by rw [ha, haF, haO], hp⟩
            · intro rs2 h2 n hm
              rw [hpb] at h2
              rcases ptMed rs2 h2 n hm with hin | h160
              · rcases pfMed F (.inl hpf) n hin with hin2 | h160
                · exact .inl (hmedO n hin2)
                · exact .inr h160
              · exact .inr h160

/-- C4 (amended): a cancelled pipeline run appends no assistant
message — partial or otherwise — and its trace ends at the observed
cancellation, so no outbound media frame follows it; on barge-in the
interruption handler cancels the pipeline and discards queued transport
audio with one clear-playback control, returning the session to
`LISTENING` with an empty utterance buffer.  (On transport close the
pipeline is cancelled by `_cleanup` without a clear control; see the
counterexample.) -/
theorem pipeline_cancelled_no_append (e : PipelineEnv)
    (hcanc : (runPipeline e).2 = true) :
    assistantAppends (runPipeline e).1.trace = []
    ∧ (∃ p, (runPipeline e).1.trace = p ++ [Ev.cancelObserved])
    ∧ (∀ st : SessionState,
        (handle_interruption st).cancelsPipeline = true
        ∧ (handle_interruption st).clearSent = true
        ∧ (handle_interruption st).st.state = AgentState.listening
        ∧ (handle_interruption st).st.audioBuffer = []) := by
  obtain ⟨bErr, _⟩ := pipelineBody_shape e rsInit
  cases hb : pipelineBody e rsInit with
  | ok F =>
    exfalso
    unfold runPipeline at hcanc
    rw [hb] at hcanc
    cases hcanc
  | error F =>
    have hrun : runPipeline e = (finalizeRS F, true) := by
      unfold runPipeline
      rw [hb]
    obtain ⟨haF, pF, hpF⟩ := bErr F hb
    rw [hrun]
    refine ⟨?_, ⟨pF, by rw [finalizeRS_trace]; exact hpF⟩, ?_⟩
    · rw [finalizeRS_trace, haF]
      simp
    · intro st
      exact ⟨rfl, rfl, rfl, rfl⟩

/-- Witness for `pipeline_cancelled_no_append`: cancellation delivered
at the very first `await`. -/
theorem pipeline_cancelled_no_append_witness :
    (runPipeline { envBase with cancelAt := some 0 }).2 = true
    ∧ (assistantAppends
        (runPipeline { envBase with cancelAt := some 0 }).1.trace = []
      ∧ (∃ p, (runPipeline { envBase with cancelAt := some 0 }).1.trace
          = p ++ [Ev.cancelObserved])
      ∧ (∀ st : SessionState,
          (handle_interruption st).cancelsPipeline = true
          ∧ (handle_interruption st).clearSent = true
          ∧ (handle_interruption st).st.state = AgentState.listening
          ∧ (handle_interruption st).st.audioBuffer = [])) :=
  ⟨by decide,
   pipeline_cancelled_no_append { envBase with cancelAt := some 0 }
     (by decide)⟩

/-- C4 counterexample: on transport close, `_cleanup` (lines 486–501)
cancels the in-flight pipeline but sends no clear-playback control, so
the claim's "queued transport audio is discarded by sending a
clear-playback control" fails for the transport-close cancellation
path. -/
theorem cleanup_no_clear_counterexample :
    cleanup_effect.cancelsPipeline = true
    ∧ cleanup_effect.clearSent = false := by
  decide

/-- C8: chunking `N` bytes at chunk size `C = sample_rate *
sample_width * chunk_ms / 1000 > 0` yields exactly `⌈N/C⌉ = (N+C-1)/C`
chunks, each of length `C`; when `N mod C ≠ 0` the last chunk is the
final `N mod C` bytes padded to `C` with `0xFF` for 1-byte samples and
`0x00` for 2-byte samples; and every outbound media frame of a pipeline
run carries exactly 160 bytes (20 ms at 8 kHz μ-law). -/
theorem chunk_audio_spec (audio : List Nat)
    (chunkMs sampleRate sampleWidth : Nat)
    (hC : 0 < sampleRate * sampleWidth * chunkMs / 1000) :
    (chunk_audio audio chunkMs sampleRate sampleWidth).length
      = (audio.length + (sampleRate * sampleWidth * chunkMs / 1000) - 1)
          / (sampleRate * sampleWidth * chunkMs / 1000)
    ∧ (∀ ch ∈ chunk_audio audio chunkMs sampleRate sampleWidth,
        ch.length = sampleRate * sampleWidth * chunkMs / 1000)
    ∧ (audio.length % (sampleRate * sampleWidth * chunkMs / 1000) ≠ 0 →
        (chunk_audio audio chunkMs sampleRate sampleWidth).getLast?
          = some (audio.drop (audio.length
                - audio.length % (sampleRate * sampleWidth * chunkMs / 1000))
              ++ List.replicate
                  ((sampleRate * sampleWidth * chunkMs / 1000)
                    - audio.length % (sampleRate * sampleWidth * chunkMs / 1000))
                  (if sampleWidth = 1 then 0xFF else 0x00)))
    ∧ (∀ (e : PipelineEnv) (n : Nat),
        Ev.mediaOut n ∈ (runPipeline e).1.trace → n = 160) := by
  obtain ⟨cm1, hcm⟩ : ∃ cm1,
      sampleRate * sampleWidth * chunkMs / 1000 = cm1 + 1 :=
    ⟨sampleRate * sampleWidth * chunkMs / 1000 - 1, by omega⟩
  have heq := chunk_audio_eq audio chunkMs sampleRate sampleWidth hC
  rw [hcm] at heq
  simp only [Nat.add_sub_cancel] at heq
  refine ⟨?_, ?_, ?_, ?_⟩
  · rw [heq, hcm, chunkGo_length cm1 _ audio.length audio le_rfl]
    have harith : audio.length + cm1 = audio.length + (cm1 + 1) - 1 := by
      omega
    rw [harith]
  · intro ch hch
    rw [heq] at hch
    rw [hcm]
    exact chunkGo_mem_length cm1 _ audio.length audio le_rfl ch hch
  · intro hmod
    rw [hcm] at hmod
    rw [heq, hcm]
    exact chunkGo_getLast cm1 _ audio.length audio le_rfl hmod
  · intro e n hm
    obtain ⟨-, bMed⟩ := pipelineBody_shape e rsInit
    cases hb : pipelineBody e rsInit with
    | ok F =>
      have hrun : (runPipeline e).1 = finalizeRS F := by
        unfold runPipeline
        rw [hb]
      rw [hrun, finalizeRS_trace] at hm
      rcases bMed F (.inl hb) n hm with hin | h160
      · simp at hin
      · exact h160
    | error F =>
      have hrun : (runPipeline e).1 = finalizeRS F := by
        unfold runPipeline
        rw [hb]
      rw [hrun, finalizeRS_trace] at hm
      rcases bMed F (.inr hb) n hm with hin | h160
      · simp at hin
      · exact h160

set_option maxRecDepth 20000 in
/-- Witness for `chunk_audio_spec` at 170 bytes with the Twilio
parameters (`C = 160`). -/
theorem chunk_audio_spec_witness :
    (0 < 8000 * 1 * 20 / 1000)
    ∧ ((chunk_audio (List.replicate 170 7) 20 8000 1).length
        = ((List.replicate 170 (7 : Nat)).length + (8000 * 1 * 20 / 1000) - 1)
            / (8000 * 1 * 20 / 1000)
      ∧ (∀ ch ∈ chunk_audio (List.replicate 170 7) 20 8000 1,
          ch.length = 8000 * 1 * 20 / 1000)
      ∧ ((List.replicate 170 (7 : Nat)).length % (8000 * 1 * 20 / 1000) ≠ 0 →
          (chunk_audio (List.replicate 170 7) 20 8000 1).getLast?
            = some ((List.replicate 170 (7 : Nat)).drop
                  ((List.replicate 170 (7 : Nat)).length
                    - (List.replicate 170 (7 : Nat)).length
                        % (8000 * 1 * 20 / 1000))
                ++ List.replicate
                    ((8000 * 1 * 20 / 1000)
                      - (List.replicate 170 (7 : Nat)).length
                          % (8000 * 1 * 20 / 1000))
                    (if (1 : Nat) = 1 then 0xFF else 0x00)))
      ∧ (∀ (e : PipelineEnv) (n : Nat),
          Ev.mediaOut n ∈ (runPipeline e).1.trace → n = 160)) :=
  ⟨by decide, chunk_audio_spec (List.replicate 170 7) 20 8000 1 (by decide)⟩

/-- Python's `search` returns a non-empty match, so the match end is
positive. -/
theorem findBoundary_e_pos :
    ∀ (l : List Char) (s e : Nat), findBoundary l = some (s, e) → 1 ≤ e := by
  intro l
  cases l with
  | nil => intro s e h; simp [findBoundary] at h
  | cons a t =>
    cases t with
    | nil => intro s e h; simp [findBoundary] at h
    | cons b rest =>
      intro s e h
      simp only [findBoundary] at h
      split at h
      · simp only [Option.some.injEq, Prod.mk.injEq] at h
        omega
      · cases hfb : findBoundary (b :: rest) with
        | none => rw [hfb] at h; simp at h
        | some p =>
          rw [hfb] at h
          simp at h
          omega

/-- The fuel argument of `extractGo` is irrelevant once it reaches the
length of the remaining text. -/
theorem extractGo_fuel :
    ∀ (f : Nat) (l : List Char), l.length ≤ f →
      extractGo f l = extractGo l.length l := by
  intro f
  induction f using Nat.strong_induction_on with
  | _ f ih =>
    intro l hl
    cases l with
    | nil => cases f <;> rfl
    | cons a t =>
      cases f with
      | zero => simp at hl
      | succ f' =>
        show extractGo (f' + 1) (a :: t) = extractGo (t.length + 1) (a :: t)
        have hl' : t.length ≤ f' := by
          simpa using hl
        simp only [extractGo]
        cases hfb : findBoundary (a :: t) with
        | none => rfl
        | some p =>
          obtain ⟨s, e⟩ := p
          have he : 1 ≤ e := findBoundary_e_pos _ _ _ hfb
          have hrest1 : ((a :: t).drop e).length ≤ f' := by
            simp only [List.length_drop, List.length_cons]
            omega
          have hrest2 : ((a :: t).drop e).length ≤ t.length := by
            simp only [List.length_drop, List.length_cons]
            omega
          have hgo : extractGo f' ((a :: t).drop e)
              = extractGo t.length ((a :: t).drop e) := by
            rw [ih f' (by omega) _ hrest1, ih t.length (by omega) _ hrest2]
          dsimp only
          rw [hgo]

set_option maxRecDepth 40000 in
/-- C1.  Conversation overflow summarization.  Whenever an
`add_user_message` call leaves strictly more user-role messages than
`max_turns`, the stored history becomes: the first two entries of the
just-appended list, then exactly one assistant message whose content
carries the `get_summary()` text, then the last
`max 4 (2 * (max_turns - 2))` entries of the just-appended list.  In the
`max_turns = 5` scenario of ten user turns each answered by the
assistant, the final history has 10 < 20 entries, its first two and last
six entries agree with the untrimmed transcript, and the inserted
assistant message (at index 2) contains `"Samantekt"`. -/
theorem conversation_overflow_summarization :
    (∀ (st : ConvState) (text : String) (minutes : Nat),
      st.maxTurns < userCount (st.messages ++ [userMsg text]) →
        (add_user_message st text minutes).messages
          = (st.messages ++ [userMsg text]).take 2
            ++ [{ role := Role.assistant,
                  content := "[Samantekt á fyrri hluta samtals: "
                    ++ get_summary
                        { st with
                            messages := st.messages ++ [userMsg text],
                            turnCount := st.turnCount + 1 } minutes
                    ++ "]" }]
            ++ (st.messages ++ [userMsg text]).drop
                ((st.messages ++ [userMsg text]).length
                  - max 4 (2 * (st.maxTurns - 2))))
    ∧ scenarioFinal.messages.length = 10
    ∧ 10 < 20
    ∧ scenarioFinal.messages.take 2 = scenarioTranscript.take 2
    ∧ scenarioFinal.messages.drop (scenarioFinal.messages.length - 6)
        = scenarioTranscript.drop (scenarioTranscript.length - 6)
    ∧ ∃ m p q, scenarioFinal.messages.get? 2 = some m
        ∧ m.role = Role.assistant
        ∧ m.content = p ++ "Samantekt" ++ q := by
  refine ⟨?_, by decide, by decide, by decide, by decide, ?_⟩
  · intro st text minutes h1
    simp only [userMsg] at h1 ⊢
    unfold add_user_message trim_if_needed
    dsimp only
    rw [if_neg (Nat.not_le.mpr h1)]
    have hk : (if (st.maxTurns - 2) * 2 < 4 then 4 else (st.maxTurns - 2) * 2)
        = max 4 (2 * (st.maxTurns - 2)) := by
      split <;> omega
    rw [hk]
  · exact ⟨Message.mk Role.assistant
        "[Samantekt á fyrri hluta samtals: Samtal við , 6 umferðir á 0 mínútum. Síðasta skilaboð: u10]",
      "[",
      " á fyrri hluta samtals: Samtal við , 6 umferðir á 0 mínútum. Síðasta skilaboð: u10]",
      by decide, by decide, by decide⟩

/-- Witness for C1: a conversation with `max_turns = 0` overflows on its
first user message and is rewritten to the summarized form. -/
theorem conversation_overflow_summarization_witness :
    convW.maxTurns < userCount (convW.messages ++ [userMsg "hi"])
    ∧ (add_user_message convW "hi" 0).messages
        = (convW.messages ++ [userMsg "hi"]).take 2
          ++ [{ role := Role.assistant,
                content := "[Samantekt á fyrri hluta samtals: "
                  ++ get_summary
                      { convW with
                          messages := convW.messages ++ [userMsg "hi"],
                          turnCount := convW.turnCount + 1 } 0
                  ++ "]" }]
          ++ (convW.messages ++ [userMsg "hi"]).drop
              ((convW.messages ++ [userMsg "hi"]).length
                - max 4 (2 * (convW.maxTurns - 2))) :=
  ⟨by decide, conversation_overflow_summarization.1 convW "hi" 0 (by decide)⟩

set_option maxRecDepth 40000 in
/-- C6.  A punctuation-plus-whitespace match whose candidate prefix ends
in a configured abbreviation is not a sentence boundary: whenever
extraction of the text after the match produces at least one sentence,
the candidate is glued (with a single space) onto the first of them and
the rest of the extraction is unchanged.  Concretely, streaming the
deltas `"Þetta er t.d. "` then `"mjög gott. "` to stream end emits the
single sentence `"Þetta er t.d. mjög gott."`. -/
theorem abbreviation_glue :
    (∀ (text : List Char) (s e : Nat) (s0 : List Char)
        (srest : List (List Char)) (rem : List Char),
      findBoundary text = some (s, e) →
      is_abbreviation_ending (text.take (s + 1)) = true →
      extract_sentences (text.drop e) = (s0 :: srest, rem) →
      extract_sentences text
        = ((text.take (s + 1) ++ ' ' :: s0) :: srest, rem))
    ∧ stream_sentences ["Þetta er t.d. ".toList, "mjög gott. ".toList]
        = ["Þetta er t.d. mjög gott.".toList] := by
  constructor
  · intro text s e s0 srest rem hfb habb hrec
    cases text with
    | nil => simp [findBoundary] at hfb
    | cons a t =>
      have he : 1 ≤ e := findBoundary_e_pos _ _ _ hfb
      have hp : ∃ p, findBoundary ((a :: t).drop e) = some p := by
        cases hfb2 : findBoundary ((a :: t).drop e) with
        | none =>
          exfalso
          cases hd : (a :: t).drop e with
          | nil =>
            rw [hd] at hrec
            simp [extract_sentences, extractGo] at hrec
          | cons b u =>
            rw [hd] at hrec hfb2
            simp [extract_sentences, extractGo, hfb2] at hrec
        | some p => exact ⟨p, rfl⟩
      obtain ⟨p, hp⟩ := hp
      have hrest : ((a :: t).drop e).length ≤ t.length := by
        simp only [List.length_drop, List.length_cons]
        omega
      show extractGo (t.length + 1) (a :: t)
          = ((List.take (s + 1) (a :: t) ++ ' ' :: s0) :: srest, rem)
      simp only [extractGo, hfb]
      simp only [habb, if_true, hp]
      rw [extractGo_fuel t.length _ hrest]
      rw [show extractGo ((a :: t).drop e).length ((a :: t).drop e)
            = extract_sentences ((a :: t).drop e) from rfl, hrec]
  · decide

set_option maxRecDepth 40000 in
/-- Witness for C6: in `"Þetta er t.d. mjög gott. "` the match at
`(12, 14)` follows the abbreviation `"t.d."`, the remainder extracts to
`"mjög gott."`, and the glued extraction yields the single combined
sentence. -/
theorem abbreviation_glue_witness :
    (findBoundary "Þetta er t.d. mjög gott. ".toList = some (12, 14)
      ∧ is_abbreviation_ending
          ("Þetta er t.d. mjög gott. ".toList.take (12 + 1)) = true
      ∧ extract_sentences ("Þetta er t.d. mjög gott. ".toList.drop 14)
          = (["mjög gott.".toList], []))
    ∧ extract_sentences "Þetta er t.d. mjög gott. ".toList
        = (("Þetta er t.d. mjög gott. ".toList.take (12 + 1)
            ++ ' ' :: "mjög gott.".toList) :: ([] : List (List Char)),
           ([] : List Char)) :=
  ⟨⟨by decide, by decide, by decide⟩,
   abbreviation_glue.1 "Þetta er t.d. mjög gott. ".toList 12 14
     "mjög gott.".toList [] [] (by decide) (by decide) (by decide)⟩

/-- Witness for C2: a lone silent byte `0xFF` arriving at clock 0 with
silence started at 0 satisfies the dispatch characterisation (and is not
dispatched, the buffer being only one byte). -/
theorem handle_media_listening_dispatch_iff_witness :
    listeningAtBoundary.state = AgentState.listening
    ∧ (((handle_media 800 listeningAtBoundary [255] 0).dispatched.isSome = true ↔
        ([255] ≠ ([] : List Nat) ∧ is_silence [255] = true
          ∧ listeningAtBoundary.hasSpeech = true
          ∧ (∃ t0, listeningAtBoundary.silenceStart = some t0
              ∧ ((800 : Int) : ℚ) ≤ ((0 : ℚ) - t0) * 1000)
          ∧ MIN_AUDIO_BYTES < (listeningAtBoundary.audioBuffer ++ [255]).length))
      ∧ (∀ u, (handle_media 800 listeningAtBoundary [255] 0).dispatched = some u →
          u = listeningAtBoundary.audioBuffer ++ [255]
            ∧ MIN_AUDIO_BYTES < u.length)) :=
  ⟨rfl, handle_media_listening_dispatch_iff 800 listeningAtBoundary [255] 0 rfl⟩

end VoiceAgent
